import Mathlib

/-!
Shallow embedding of the waveform-payload transform and signal-processing
core of the `hxr_analysis` repository (path resolution, structural
split/merge, background subtraction, candidate-peak detection).

Numeric values are modelled as exact rationals; the arithmetic follows the
pure-Python fallback paths of `np_compat` (which the source keeps
result-identical to the vectorized paths).  Scalars produced by noise
estimation can be of the form `a * sqrt b`; they are represented exactly by
the `Scal` type so that every comparison in the pipeline stays decidable.
-/

namespace Hxr

/-- Scalar produced by noise estimation / thresholding: `fin a b` denotes
the real number `a * Real.sqrt b` (with `b ≥ 0` at every use site), and
`inf` denotes `+∞` (Python `float("inf")`). -/
inductive Scal where
  | fin (a : ℚ) (b : ℚ)
  | inf
deriving Repr, DecidableEq

/-- A Python value as used by the payload data model: `None`, booleans,
numbers, strings, noise scalars, numeric arrays, lists and (insertion
ordered, string-keyed) dictionaries. -/
inductive Val where
  | vnone
  | vbool (b : Bool)
  | vnum (q : ℚ)
  | vstr (s : String)
  | vscal (x : Scal)
  | varr (xs : List ℚ)
  | vlist (xs : List Val)
  | vdict (es : List (String × Val))
deriving Repr

/-- A raised Python exception, identified by its class name and message. -/
structure PyErr where
  cls : String
  msg : String
deriving Repr, DecidableEq

abbrev PyRes (α : Type) := Except PyErr α

/-- First value bound to key `k` in a dict entry list (Python `d[k]` /
`d.get(k)`). -/
def dlookup (es : List (String × Val)) (k : String) : Option Val :=
  match es.find? (fun e => e.1 = k) with
  | some e => some e.2
  | none => none

/-- Python `k in d`. -/
def dmem (es : List (String × Val)) (k : String) : Bool :=
  es.any (fun e => e.1 = k)

/-- Python `d[k] = v`: replace the value in place if the key is present
(keeping its position), otherwise append the new entry at the end. -/
def dset (es : List (String × Val)) (k : String) (v : Val) : List (String × Val) :=
  match es with
  | [] => [(k, v)]
  | e :: rest => if e.1 = k then (k, v) :: rest else e :: dset rest k v

mutual

/-- Python structural equality `==` on values (order-sensitive on lists and
on dict entry order, which coincides with Python on the list/array values
the operators compare). -/
def Val.beq : Val → Val → Bool
  | .vnone, .vnone => true
  | .vbool a, .vbool b => a == b
  | .vnum a, .vnum b => a == b
  | .vstr a, .vstr b => a == b
  | .vscal a, .vscal b => a == b
  | .varr a, .varr b => a == b
  | .vlist xs, .vlist ys => Val.listBeq xs ys
  | .vdict es, .vdict fs => Val.entsBeq es fs
  | _, _ => false

def Val.listBeq : List Val → List Val → Bool
  | [], [] => true
  | x :: xs, y :: ys => Val.beq x y && Val.listBeq xs ys
  | _, _ => false

def Val.entsBeq : List (String × Val) → List (String × Val) → Bool
  | [], [] => true
  | (k, v) :: xs, (k', v') :: ys => k == k' && Val.beq v v' && Val.entsBeq xs ys
  | _, _ => false

end

mutual

/-- Well-formedness of a value: every dictionary has pairwise distinct keys
(guaranteed for genuine Python dicts). -/
def ValWF : Val → Bool
  | .vlist xs => valListWF xs
  | .vdict es => (es.map (·.1)).Nodup && entsWF es
  | _ => true

def valListWF : List Val → Bool
  | [] => true
  | x :: xs => ValWF x && valListWF xs

def entsWF : List (String × Val) → Bool
  | [] => true
  | e :: es => ValWF e.2 && entsWF es

end

mutual

theorem Val.beq_refl : ∀ v : Val, Val.beq v v = true
  | .vnone => rfl
  | .vbool a => by simp [Val.beq]
  | .vnum a => by simp [Val.beq]
  | .vstr a => by simp [Val.beq]
  | .vscal a => by simp [Val.beq]
  | .varr a => by simp [Val.beq]
  | .vlist xs => by simp only [Val.beq]; exact Val.listBeq_refl xs
  | .vdict es => by simp only [Val.beq]; exact Val.entsBeq_refl es

theorem Val.listBeq_refl : ∀ xs : List Val, Val.listBeq xs xs = true
  | [] => rfl
  | x :: xs => by
      simp only [Val.listBeq, Bool.and_eq_true]
      exact ⟨Val.beq_refl x, Val.listBeq_refl xs⟩

theorem Val.entsBeq_refl : ∀ es : List (String × Val), Val.entsBeq es es = true
  | [] => rfl
  | (k, v) :: es => by
      simp only [Val.entsBeq, Bool.and_eq_true]
      exact ⟨⟨by simp, Val.beq_refl v⟩, Val.entsBeq_refl es⟩

end

/-! ### Path parsing and resolution (`waveform_display/path.py`) -/

/-- Characters removed by Python `str.strip()`. -/
def isPySpace (c : Char) : Bool :=
  c = ' ' || c = '\t' || c = '\n' || c = '\r' || c = Char.ofNat 11 || c = Char.ofNat 12

/-- Python `str.strip()` on a character list. -/
def pyStrip (cs : List Char) : List Char :=
  ((cs.dropWhile isPySpace).reverse.dropWhile isPySpace).reverse

/-- The exception class raised by `path.py` (both for parse and resolution
failures). -/
def pathErr (m : String) : PyErr := ⟨"PathResolutionError", m⟩

/-- Double quote character. -/
def dquote : Char := Char.ofNat 34

/-- Single quote character. -/
def squote : Char := Char.ofNat 39

/-- Character that does not close a bracket expression. -/
def notRB (c : Char) : Bool := c ≠ ']'

/-- Character that continues a bare path segment. -/
def notDelim (c : Char) : Bool := c ≠ '.' && c ≠ '['

theorem lenDropWhileLe (p : α → Bool) : ∀ l : List α, (l.dropWhile p).length ≤ l.length
  | [] => le_refl _
  | a :: l => by
      rw [List.dropWhile_cons]
      by_cases h : p a
      · simpa [h] using le_trans (lenDropWhileLe p l) (Nat.le_succ _)
      · simp [h]

/-- Main loop of `_parse_path`: walk the characters of the path, emitting
dotted identifiers and bracketed quoted keys.  The fuel argument (one unit
per loop iteration; each iteration consumes at least one character, so
`length + 1` always suffices) keeps the recursion structural. -/
def parseGo : Nat → List Char → Except PyErr (List String)
  | 0, _ => .error (pathErr "out of fuel")
  | _ + 1, [] => .ok []
  | fuel + 1, '.' :: rest =>
      if rest.isEmpty then .error (pathErr "Path cannot end with dot")
      else parseGo fuel rest
  | fuel + 1, '[' :: rest =>
      let content := rest.takeWhile notRB
      match rest.dropWhile notRB with
      | [] => .error (pathErr "Missing closing bracket in path")
      | _ :: rest2 =>
        let cs := pyStrip content
        if cs.length < 2 || cs.headD ' ' ∉ [dquote, squote] ||
            cs.getLastD ' ' ≠ cs.headD ' ' then
          .error (pathErr "Bracket path must be a quoted string")
        else
          let token := String.mk ((cs.drop 1).dropLast)
          match rest2 with
          | [] => .ok [token]
          | c :: _ =>
            if c = '.' || c = '[' then
              (parseGo fuel rest2).map (fun ts => token :: ts)
            else .error (pathErr "Unexpected characters after bracket expression")
  | fuel + 1, c :: rest =>
      let seg := c :: rest.takeWhile notDelim
      if seg.isEmpty then .error (pathErr "Empty path segment")
      else
        (parseGo fuel (rest.dropWhile notDelim)).map
          (fun ts => String.mk seg :: ts)

/-- `_parse_path`: empty / whitespace-only check, then the main loop. -/
def parsePath (s : String) : Except PyErr (List String) :=
  if s.data = [] || pyStrip s.data = [] then .error (pathErr "Path is empty")
  else parseGo (s.data.length + 1) s.data

/-- Token walk of `resolve_path`: descend through nested dicts only. -/
def resolveTokens : Val → List String → Except PyErr Val
  | v, [] => .ok v
  | .vdict es, t :: ts =>
      match dlookup es t with
      | some v => resolveTokens v ts
      | none => .error (pathErr ("Missing key " ++ t))
  | _, t :: _ => .error (pathErr ("Cannot traverse into " ++ t))

/-- `resolve_path`. -/
def resolvePath (v : Val) (path : String) : Except PyErr Val := do
  let ts ← parsePath path
  resolveTokens v ts

/-! ### Structural set (`transform/core.py`, `_clone_with_set`) -/

/-- `_clone_with_set` of `transform/core.py`: purely functional structural
set, copying dicts along the path and creating intermediate mappings. -/
def cloneWithSet : Val → List String → Val → Except PyErr Val
  | _, [], value => .ok value
  | source, t :: ts, value =>
      match source with
      | .vdict es =>
          match dlookup es t with
          | some hit => do
              let sub ← cloneWithSet hit ts value
              .ok (.vdict (dset es t sub))
          | none =>
              match ts with
              | [] => .ok (.vdict (dset es t value))
              | _ :: _ => do
                  let sub ← cloneWithSet (.vdict []) ts value
                  .ok (.vdict (dset es t sub))
      | _ => .error (pathErr ("Cannot traverse into " ++ t))

theorem dlookup_dset (es : List (String × Val)) (k : String) (v : Val) :
    dlookup (dset es k v) k = some v := by
  induction es with
  | nil => simp [dset, dlookup, List.find?]
  | cons e rest ih =>
      by_cases h : e.1 = k
      · simp [dset, h, dlookup, List.find?]
      · simpa [dset, h, dlookup, List.find?] using ih

/-! ### Identifier computation (`transform/core.py`, `compute_identifier`) -/

/-- The exception classes of `transform/errors.py` and the generic Python
errors the operators raise. -/
def specErr (m : String) : PyErr := ⟨"SpecError", m⟩

def transformerErr (m : String) : PyErr := ⟨"TransformerError", m⟩

def mergeCollisionErr (m : String) : PyErr := ⟨"MergeCollisionError", m⟩

def valueErr (m : String) : PyErr := ⟨"ValueError", m⟩

def typeErr (m : String) : PyErr := ⟨"TypeError", m⟩

def attrErr (m : String) : PyErr := ⟨"AttributeError", m⟩

def indexErr (m : String) : PyErr := ⟨"IndexError", m⟩

/-- Characters kept verbatim by `_SANITIZE_PATTERN` (`[A-Za-z0-9_.-]`). -/
def isGoodIdChar (c : Char) : Bool :=
  c.isAlpha || c.isDigit || c = '_' || c = '.' || c = '-'

/-- `re.sub(r"[^A-Za-z0-9_.-]+", "_", ·)`: replace each maximal run of
disallowed characters by a single underscore (fuel keeps the recursion
structural; `length + 1` always suffices). -/
def sanitizeRuns : Nat → List Char → List Char
  | 0, _ => []
  | _ + 1, [] => []
  | fuel + 1, c :: rest =>
      if isGoodIdChar c then c :: sanitizeRuns fuel rest
      else '_' :: sanitizeRuns fuel (rest.dropWhile (fun x => !isGoodIdChar x))

/-- `_sanitize_part`: regex replacement, strip `_`, and `"part"` fallback. -/
def sanitizePart (s : String) : String :=
  let cs0 := sanitizeRuns (s.data.length + 1) s.data
  let cs := ((cs0.dropWhile (· = '_')).reverse.dropWhile (· = '_')).reverse
  if cs = [] then "part" else String.mk cs

/-- Python `str(value)` restricted to the values identifiers are computed
from. -/
def pyStr : Val → String
  | .vstr s => s
  | .vnum q => if q.den = 1 then toString q.num else toString q
  | .vbool b => if b then "True" else "False"
  | .vnone => "None"
  | .vscal _ => "scal"
  | .varr _ => "array"
  | .vlist _ => "list"
  | .vdict _ => "dict"

/-- Python truthiness of a value. -/
def pyTruthy : Val → Bool
  | .vnone => false
  | .vbool b => b
  | .vnum q => q ≠ 0
  | .vstr s => s ≠ ""
  | .vscal x => match x with | .fin a b => a ≠ 0 && b ≠ 0 | .inf => true
  | .varr xs => !xs.isEmpty
  | .vlist xs => !xs.isEmpty
  | .vdict es => !es.isEmpty

/-- `IdSpec` of `transform/spec.py`. -/
structure IdSpec where
  id_paths : List String
  fallback : String := "payload"
  joiner : String := "__"
  sanitize : Bool := true

/-- `compute_identifier`: resolve each path (skipping failures and `None`),
stringify, optionally sanitize, join; fall back to the literal when no path
resolves. -/
def computeIdentifier (payload : Val) (ispec : IdSpec) : String :=
  let parts := ispec.id_paths.foldl (fun acc path =>
    match resolvePath payload path with
    | .error _ => acc
    | .ok .vnone => acc
    | .ok v => acc ++ [pyStr v]) []
  let parts := if parts = [] then [ispec.fallback] else parts
  let parts := if ispec.sanitize then parts.map sanitizePart else parts
  String.intercalate ispec.joiner parts

/-! ### Structural transforms (`transform/core.py`, split / merge) -/

/-- `SplitSpec` of `transform/spec.py`. -/
structure SplitSpec where
  source_path : String
  split_mode : String
  child_payload_target_path : Option String := none
  id_spec : Option IdSpec := none
  child_key_template : String := "{key}"
  attach_id_to_meta_path : String := "meta.__uid__"
  copy_policy : String := "shallow"

/-- `MergeSpec` of `transform/spec.py`. -/
structure MergeSpec where
  target_path : String
  merge_mode : String
  id_spec : Option IdSpec := none
  collision_policy : String := "attach_id"
  collision_template : String := "{key}@{uid}"
  require_same_timebase : Bool := true
  time_path : String := "data.time"
  source_map_path : String := "meta.__sources__"
  collision_suffix_separator : String := "_"

/-- `template.format(key=..., pid=...)` for the templates used by split. -/
def formatKeyPid (t : String) (key pid : String) : String :=
  String.intercalate pid ((String.intercalate key (t.splitOn "{key}")).splitOn "{pid}")

/-- `template.format(key=..., uid=...)` for merge collision templates. -/
def formatKeyUid (t : String) (key uid : String) : String :=
  String.intercalate uid ((String.intercalate key (t.splitOn "{key}")).splitOn "{uid}")

/-- `_ensure_copy`: both copy policies return a structurally identical
value in the pure model; unknown policies fail. -/
def ensureCopy (v : Val) (policy : String) : Except PyErr Val :=
  if policy = "deep" then .ok v
  else if policy = "shallow" then .ok v
  else .error (specErr ("Unknown copy policy: " ++ policy))

/-- `_ensure_dict` of `transform/core.py`. -/
def ensureDictT (v : Val) (ctx : String) : Except PyErr (List (String × Val)) :=
  match v with
  | .vdict es => .ok es
  | _ => .error (transformerErr ("Expected dict at " ++ ctx))

/-- Counter-map lookup for `seen_ids`. -/
def alookup (es : List (String × Nat)) (k : String) : Option Nat :=
  match es.find? (fun e => e.1 = k) with
  | some e => some e.2
  | none => none

/-- Counter-map update for `seen_ids`. -/
def aset (es : List (String × Nat)) (k : String) (v : Nat) : List (String × Nat) :=
  match es with
  | [] => [(k, v)]
  | e :: rest => if e.1 = k then (k, v) :: rest else e :: aset rest k v

/-- Default identifier path list used by split / merge / operators. -/
def defaultIdPaths : List String :=
  ["meta.__uid__", "meta.file", "meta.shot", "meta.scope"]

/-- The item enumeration of `split_payload`: the key/value pairs of the
mapping at `source_path` for `dict_keys`, the (stringified) index/value
pairs of the list for `list_items`. -/
def splitItems (source : Val) (spec : SplitSpec) :
    Except PyErr (List (String × Val)) :=
  if spec.split_mode = "dict_keys" then
    ensureDictT source spec.source_path
  else
    match source with
    | .vlist xs => .ok (xs.enum.map (fun p => (toString p.1, p.2)))
    | .varr xs => .ok (xs.enum.map (fun p => (toString p.1, Val.vnum p.2)))
    | _ => .error (transformerErr ("Expected list at " ++ spec.source_path))

/-- One iteration of the `for key, value in items` loop of `split_payload`:
clone the payload, install the single-item container at the target path,
compute the (possibly `_{n}`-suffixed) child identifier and attach it at
`attach_id_to_meta_path`. -/
def splitStep (payload : Val) (spec : SplitSpec) (target_tokens : List String)
    (base_uid joiner : String)
    (acc : List (String × Val) × List (String × Nat)) (kv : String × Val) :
    Except PyErr (List (String × Val) × List (String × Nat)) := do
  let child0 ← ensureCopy payload spec.copy_policy
  let child_key := formatKeyPid spec.child_key_template kv.1 base_uid
  let child1 ← cloneWithSet child0 target_tokens (.vdict [(child_key, kv.2)])
  let base := base_uid ++ joiner ++ kv.1
  let count := (alookup acc.2 base).getD 0
  let child_id := if count = 0 then base else base ++ "_" ++ toString count
  let meta_tokens ← parsePath spec.attach_id_to_meta_path
  let child2 ← cloneWithSet child1 meta_tokens (.vstr child_id)
  .ok (dset acc.1 child_id child2, aset acc.2 base (count + 1))

/-- `split_payload`: produce one child payload per item of the container at
`source_path`, de-duplicating child identifiers with `_{n}` suffixes and
attaching each child's id at `attach_id_to_meta_path`. -/
def splitPayload (payload : Val) (spec : SplitSpec) :
    Except PyErr (List (String × Val)) :=
  if spec.split_mode ≠ "dict_keys" && spec.split_mode ≠ "list_items" then
    .error (specErr ("Unsupported split mode: " ++ spec.split_mode))
  else do
  let base_uid := computeIdentifier payload
    (spec.id_spec.getD { id_paths := defaultIdPaths })
  let source ← resolvePath payload spec.source_path
  let target_path := match spec.child_payload_target_path with
    | some t => if t = "" then spec.source_path else t
    | none => spec.source_path
  let target_tokens ← parsePath target_path
  let items ← splitItems source spec
  let joiner := match spec.id_spec with | some i => i.joiner | none => "__"
  let folded ← items.foldlM
    (splitStep payload spec target_tokens base_uid joiner) ([], [])
  .ok folded.1

/-- `_compare_timebases`: structural equality (numpy `array_equal` or plain
`==` in the fallback). -/
def compareTimebases (reference current : Val) : Bool :=
  Val.beq reference current

/-- The `while new_key in existing` loop of the `suffix_counter` collision
policy, with fuel (one more than the number of keys always suffices). -/
def suffixCounterGo (existing : List (String × Val)) (key sep : String) :
    Nat → Nat → String
  | 0, _ => key
  | fuel + 1, n =>
      let cand := key ++ sep ++ toString n
      if dmem existing cand then suffixCounterGo existing key sep fuel (n + 1)
      else cand

/-- `suffix_counter` collision policy: append `{sep}{n}` until free. -/
def suffixCounter (existing : List (String × Val)) (key sep : String) : String :=
  if dmem existing key then suffixCounterGo existing key sep (existing.length + 1) 1
  else key

/-- `_apply_collision` of `merge_payloads`. -/
def applyCollision (spec : MergeSpec) (key uid : String)
    (existing : List (String × Val)) : Except PyErr String :=
  if spec.collision_policy = "error" then
    if dmem existing key then
      .error (mergeCollisionErr ("Collision on key " ++ key))
    else .ok key
  else if spec.collision_policy = "attach_id" then
    let new_key := formatKeyUid spec.collision_template key uid
    if dmem existing new_key then
      .error (mergeCollisionErr ("Collision after attachment for key " ++ key))
    else .ok new_key
  else if spec.collision_policy = "overwrite" then .ok key
  else if spec.collision_policy = "suffix_counter" then
    .ok (suffixCounter existing key spec.collision_suffix_separator)
  else .error (specErr ("Unknown collision policy: " ++ spec.collision_policy))

/-- Provenance record `{uid, original_key, final_key}`. -/
def provEntry (uid okey fkey : String) : Val :=
  .vdict [("uid", .vstr uid), ("original_key", .vstr okey), ("final_key", .vstr fkey)]

/-- The reference timebase of `merge_payloads` (resolved on the first
payload when `require_same_timebase`). -/
def mergeTimeRef (spec : MergeSpec) (base_payload : Val) :
    Except PyErr (Option Val) :=
  if spec.require_same_timebase then
    (resolvePath base_payload spec.time_path).map some
  else .ok none

/-- The per-payload timebase check of `merge_payloads`. -/
def mergeTimeCheck (spec : MergeSpec) (time_ref : Option Val) (payload : Val) :
    Except PyErr Unit :=
  if spec.require_same_timebase then do
    let current ← resolvePath payload spec.time_path
    if !compareTimebases (time_ref.getD .vnone) current then
      .error (transformerErr "Timebase mismatch across payloads")
    else .ok ()
  else .ok ()

/-- The per-key body of the merge loop: collision resolution, the
`dict_union` placement (any other mode is a `SpecError`), and the
provenance record. -/
def mergeKeyStep (spec : MergeSpec) (uid : String)
    (acc2 : List (String × Val) × List Val) (kv : String × Val) :
    Except PyErr (List (String × Val) × List Val) := do
  let (merged, prov) := acc2
  let final_key ← applyCollision spec kv.1 uid merged
  if spec.collision_policy = "overwrite" && dmem merged final_key then
    .ok (dset merged final_key kv.2, prov ++ [provEntry uid kv.1 final_key])
  else if spec.merge_mode = "dict_union" then
    .ok (dset merged final_key kv.2, prov ++ [provEntry uid kv.1 final_key])
  else
    .error (specErr ("Unsupported merge mode: " ++ spec.merge_mode))

/-- The per-payload body of the merge loop: identifier, target resolution,
timebase check, then the fold over the payload's `(key, value)` pairs. -/
def mergePayloadStep (spec : MergeSpec) (joiner : String)
    (time_ref : Option Val) (acc : List (String × Val) × List Val)
    (payload : Val) : Except PyErr (List (String × Val) × List Val) := do
  let uid := computeIdentifier payload
    (spec.id_spec.getD { id_paths := defaultIdPaths, joiner := joiner })
  let source ← resolvePath payload spec.target_path
  let source_dict ← ensureDictT source spec.target_path
  let _ ← mergeTimeCheck spec time_ref payload
  source_dict.foldlM (mergeKeyStep spec uid) acc

/-- `merge_payloads`: fold every payload's `target_path` mapping into one
mapping with collision resolution, check timebases, and write the merged
mapping plus provenance into a copy of the first payload. -/
def mergePayloads (payloads : List Val) (spec : MergeSpec) : Except PyErr Val :=
  if payloads.isEmpty then
    .error (transformerErr "No payloads provided for merge")
  else do
  let target_tokens ← parsePath spec.target_path
  let source_map_tokens ← parsePath spec.source_map_path
  let joiner := match spec.id_spec with | some i => i.joiner | none => "__"
  let base_payload := payloads.headD .vnone
  let base_target ← resolvePath base_payload spec.target_path
  let _ ← ensureDictT base_target spec.target_path
  let time_ref ← mergeTimeRef spec base_payload
  let res ← payloads.foldlM (mergePayloadStep spec joiner time_ref) ([], [])
  let base1 ← cloneWithSet base_payload target_tokens (.vdict res.1)
  match cloneWithSet base1 source_map_tokens (.vlist res.2) with
  | .ok base2 => .ok base2
  | .error e =>
      if e.cls = "PathResolutionError" then
        match base1 with
        | .vdict es =>
            let base1' := if dmem es "meta" then Val.vdict es
              else Val.vdict (dset es "meta" (.vdict []))
            cloneWithSet base1' source_map_tokens (.vlist res.2)
        | _ => .error (attrErr "get")
      else .error e

/-! ### Background subtraction (`preprocessing/background_subtract.py`).
The numeric paths follow the pure-Python fallbacks (`np_compat` without
numpy), which the source keeps result-identical to the vectorized paths;
sequences are required to be numeric where the source converts elements
with `float(...)`. -/

/-- `BackgroundSubtractParams` (the `result_channel_prefix` field is named
`result_channel_prefix0` here). -/
structure BackgroundSubtractParams where
  time_path : String := "data.time"
  channels_path : String := "data.channels"
  match_mode : String := "by_key"
  missing_channel_policy : String := "skip"
  bg_scale : ℚ := 1
  exp_scale : ℚ := 1
  time_align : String := "require_equal"
  interp_kind : String := "linear"
  result_channel_prefix0 : String := ""
  store_original : Bool := true
  output_field : String := "data.channels"
  record_history : Bool := true

/-- `np.asarray` on a payload value, idealized to numeric sequences. -/
def asarrayQ (v : Val) : Except PyErr (List ℚ) :=
  match v with
  | .varr xs => .ok xs
  | .vlist xs => xs.mapM (fun x =>
      match x with
      | .vnum q => Except.ok q
      | _ => .error (typeErr "non-numeric element"))
  | _ => .error (typeErr "not an iterable of numbers")

/-- `_ensure_dict` of `background_subtract.py` (raises `ValueError`). -/
def ensureDictV (v : Val) (ctx : String) : Except PyErr (List (String × Val)) :=
  match v with
  | .vdict es => .ok es
  | _ => .error (valueErr ("Expected dict at " ++ ctx))

/-- Python `d.get(k, default)`; raises `AttributeError` on non-dicts. -/
def pyGet (d : Val) (k : String) (default : Val) : Except PyErr Val :=
  match d with
  | .vdict es => .ok ((dlookup es k).getD default)
  | _ => .error (attrErr "get")

/-- One sample of the fallback linear interpolation of `_interp`: clamp to
the boundary values, otherwise interpolate on the first bracketing
interval (the boundary guards make the `none` case unreachable). -/
def interpOne (xp fp : List ℚ) (xv : ℚ) : ℚ :=
  if xv ≤ xp.headD 0 then fp.headD 0
  else if xv ≥ xp.getLastD 0 then fp.getLastD 0
  else
    match (List.range' 1 (xp.length - 1)).find? (fun i => xp.getD i 0 ≥ xv) with
    | some i =>
        let x0 := xp.getD (i - 1) 0
        let x1 := xp.getD i 0
        let y0 := fp.getD (i - 1) 0
        let y1 := fp.getD i 0
        if x1 = x0 then y0 else y0 + (xv - x0) / (x1 - x0) * (y1 - y0)
    | none => fp.getLastD 0

/-- `_interp` (fallback path of `background_subtract.py`). -/
def interpF (x xp fp : List ℚ) : Except PyErr (List ℚ) :=
  if xp.length ≠ fp.length then
    .error (valueErr "xp and fp must have same length for interpolation")
  else if xp.length < 2 then .ok (fp.take x.length)
  else .ok (x.map (interpOne xp fp))

/-- `_scaled_subtract`: elementwise `exp_scale * e - bg_scale * b` (the
fallback `zip` truncates to the shorter operand, and the vectorized path
coincides on equal lengths). -/
def scaledSubtract (e b : List ℚ) (exp_scale bg_scale : ℚ) : List ℚ :=
  List.zipWith (fun x y => exp_scale * x - bg_scale * y) e b

/-- `_clone_with_set` of `background_subtract.py`: deep copy, then walk
`tokens[:-1]` creating missing intermediate dicts, and set the last token. -/
def bgCloneWithSet : Val → List String → Val → Except PyErr Val
  | _, [], _ => .error (indexErr "list index out of range")
  | source, [last], value =>
      match source with
      | .vdict es => .ok (.vdict (dset es last value))
      | _ => .error (pathErr ("Cannot set " ++ last))
  | source, t :: ts, value =>
      match source with
      | .vdict es =>
          match dlookup es t with
          | none => do
              let sub ← bgCloneWithSet (.vdict []) ts value
              .ok (.vdict (dset es t sub))
          | some (.vdict es1) => do
              let sub ← bgCloneWithSet (.vdict es1) ts value
              .ok (.vdict (dset es t sub))
          | some _ => .error (pathErr ("Cannot traverse into " ++ t))
      | _ => .error (pathErr ("Cannot traverse into " ++ t))

/-- Python `d.setdefault(k, {})` restricted to ensuring the entry exists
(the returned alias is modelled by subsequent lookups). -/
def pySetdefaultDict (payload : Val) (k : String) : Except PyErr Val :=
  match payload with
  | .vdict es => .ok (.vdict (if dmem es k then es else dset es k (.vdict [])))
  | _ => .error (attrErr "setdefault")

/-- `_ensure_uid`: ensure `meta` exists, compute and store `meta.__uid__`
when missing, and return the (possibly pre-existing) uid value together
with the updated payload. -/
def ensureUid (payload : Val) : Except PyErr (Val × Val) :=
  match payload with
  | .vdict es =>
      let es1 := if dmem es "meta" then es else dset es "meta" (.vdict [])
      match dlookup es1 "meta" with
      | some (.vdict ms) =>
          match dlookup ms "__uid__" with
          | some u => .ok (u, .vdict es1)
          | none =>
              let uid := computeIdentifier (.vdict es1)
                { id_paths := ["meta.file", "meta.shot", "meta.scope"] }
              .ok (.vstr uid,
                .vdict (dset es1 "meta" (.vdict (dset ms "__uid__" (.vstr uid)))))
      | some _ => .error (typeErr "argument is not iterable")
      | none => .error (typeErr "unreachable")
  | _ => .error (attrErr "setdefault")

/-- Write `meta.<k> = v` through the alias obtained from
`new_payload.setdefault("meta", {})`. -/
def setMetaKey (payload : Val) (k : String) (v : Val) : Except PyErr Val :=
  match payload with
  | .vdict es =>
      match dlookup es "meta" with
      | some (.vdict ms) => .ok (.vdict (dset es "meta" (.vdict (dset ms k v))))
      | some _ => .error (typeErr "meta is not a dict")
      | none => .error (typeErr "meta missing")
  | _ => .error (typeErr "payload is not a dict")

/-- `meta.setdefault("__history__", []).append(entry)`. -/
def appendHistory (payload : Val) (entry : Val) : Except PyErr Val :=
  match payload with
  | .vdict es =>
      match dlookup es "meta" with
      | some (.vdict ms) =>
          let ms1 := if dmem ms "__history__" then ms else dset ms "__history__" (.vlist [])
          match dlookup ms1 "__history__" with
          | some (.vlist hs) =>
              .ok (.vdict (dset es "meta"
                (.vdict (dset ms1 "__history__" (.vlist (hs ++ [entry]))))))
          | some _ => .error (attrErr "append")
          | none => .error (attrErr "unreachable")
      | some _ => .error (typeErr "meta is not a dict")
      | none => .error (typeErr "meta missing")
  | _ => .error (typeErr "payload is not a dict")

/-- `dataclasses.asdict` for `BackgroundSubtractParams`. -/
def bgParamsAsDict (p : BackgroundSubtractParams) : Val :=
  .vdict [("time_path", .vstr p.time_path), ("channels_path", .vstr p.channels_path),
    ("match_mode", .vstr p.match_mode),
    ("missing_channel_policy", .vstr p.missing_channel_policy),
    ("bg_scale", .vnum p.bg_scale), ("exp_scale", .vnum p.exp_scale),
    ("time_align", .vstr p.time_align), ("interp_kind", .vstr p.interp_kind),
    ("result_channel_prefix", .vstr p.result_channel_prefix0),
    ("store_original", .vbool p.store_original),
    ("output_field", .vstr p.output_field),
    ("record_history", .vbool p.record_history)]

/-- Re-raise `PathResolutionError` as the operator's `ValueError`. -/
def wrapMissing (which : String) (e : PyErr) : PyErr :=
  if e.cls = "PathResolutionError" then
    valueErr (which ++ " payload missing required data: " ++ e.msg)
  else e

/-- The channel-matching decision of `background_subtract_one`:
`by_key` matches the same name, `by_index` the background entry in the
same position; any other mode is a `ValueError`. -/
def bgMatchKey (params : BackgroundSubtractParams)
    (ch_bg : List (String × Val)) (idx : Nat) (exp_key : String) :
    Except PyErr (Option String) :=
  if params.match_mode = "by_key" then .ok (some exp_key)
  else if params.match_mode = "by_index" then
    .ok ((ch_bg.get? idx).map (fun e => e.1))
  else .error (valueErr ("Unknown match_mode: " ++ params.match_mode))

/-- The per-channel loop body outcome of `background_subtract_one`:
accumulated result channels and skipped keys. -/
def bgChannelStep (params : BackgroundSubtractParams) (t_exp t_bg : List ℚ)
    (ch_bg : List (String × Val))
    (acc : List (String × Val) × List String) (idx : Nat) (exp_key : String)
    (exp_values : Val) : Except PyErr (List (String × Val) × List String) := do
  let (result_channels, skipped) := acc
  let match_key : Option String ← bgMatchKey params ch_bg idx exp_key
  let missing := match match_key with
    | none => true
    | some mk => !dmem ch_bg mk
  if missing then
    if params.missing_channel_policy = "error" then
      .error (valueErr ("Missing background channel for experiment channel " ++ exp_key))
    else
      let out_key := params.result_channel_prefix0 ++ exp_key
      .ok (dset result_channels out_key exp_values, skipped ++ [exp_key])
  else do
    let mk := match_key.getD ""
    let bg_values := (dlookup ch_bg mk).getD .vnone
    let bg_arr0 ← asarrayQ bg_values
    let bg_arr ←
      if params.time_align = "interp_bg_to_exp" then interpF t_exp t_bg bg_arr0
      else .ok bg_arr0
    let e ← asarrayQ exp_values
    let y_out := scaledSubtract e bg_arr params.exp_scale params.bg_scale
    let out_key := params.result_channel_prefix0 ++ exp_key
    .ok (dset result_channels out_key (.varr y_out), skipped)

/-- The `store_original` step of `background_subtract_one`: try the
structural set of `meta.__original__`; on `PathResolutionError` fall back
to `setdefault` (whose `meta` alias is a non-dict there, so the fallback
raises `AttributeError` unless `meta` was absent). -/
def storeOriginalStep (new1 original : Val) : Except PyErr Val :=
  match bgCloneWithSet new1 ["meta", "__original__"] original with
  | .ok v => .ok v
  | .error e =>
      if e.cls = "PathResolutionError" then
        match new1 with
        | .vdict es =>
            let es1 := if dmem es "meta" then es else dset es "meta" (.vdict [])
            match dlookup es1 "meta" with
            | some (.vdict ms) =>
                let ms1 := if dmem ms "__original__" then ms
                  else dset ms "__original__" original
                .ok (.vdict (dset es1 "meta" (.vdict ms1)))
            | some _ => .error (attrErr "setdefault")
            | none => .error (attrErr "unreachable")
        | _ => .error (attrErr "setdefault")
      else .error e

/-- The time-alignment validation of `background_subtract_one`:
`require_equal` demands equal length and (numerically close, exact in the
fallback) equal timebases; `interp_bg_to_exp` has no upfront check; any
other value is a configuration `ValueError`. -/
def bgTimeCheck (params : BackgroundSubtractParams) (t_exp t_bg : List ℚ) :
    Except PyErr Unit :=
  if params.time_align = "require_equal" then
    if t_exp.length ≠ t_bg.length || !(t_exp = t_bg : Bool) then
      .error (valueErr "Timebases do not match between experiment and background payloads")
    else .ok ()
  else if params.time_align = "interp_bg_to_exp" then .ok ()
  else .error (valueErr ("Unknown time_align: " ++ params.time_align))

/-- `if store_original:` wrapper around the `store_original` step. -/
def storeOriginalOpt (b : Bool) (v orig : Val) : Except PyErr Val :=
  if b then storeOriginalStep v orig else .ok v

/-- `if record_history:` wrapper around the history append. -/
def recordHistoryOpt (b : Bool) (v entry : Val) : Except PyErr Val :=
  if b then appendHistory v entry else .ok v

/-- `background_subtract_one` (the nondeterministic timestamp is passed in
as `now`). -/
def bgSubtractOne (exp_payload bg_payload : Val)
    (params : BackgroundSubtractParams) (now : String) : Except PyErr Val := do
  let t_expV ← (resolvePath exp_payload params.time_path).mapError (wrapMissing "Experiment")
  let t_exp ← asarrayQ t_expV
  let ch_expV ← (resolvePath exp_payload params.channels_path).mapError (wrapMissing "Experiment")
  let t_bgV ← (resolvePath bg_payload params.time_path).mapError (wrapMissing "Background")
  let t_bg ← asarrayQ t_bgV
  let ch_bgV ← (resolvePath bg_payload params.channels_path).mapError (wrapMissing "Background")
  let ch_exp ← ensureDictV ch_expV params.channels_path
  let ch_bg ← ensureDictV ch_bgV params.channels_path
  let _ ← bgTimeCheck params t_exp t_bg
  let bgMetaV ← pyGet bg_payload "meta" (.vdict [])
  let uidV ← pyGet bgMetaV "__uid__" .vnone
  let bg_uid : Val :=
    if pyTruthy uidV then uidV
    else .vstr (computeIdentifier bg_payload
      { id_paths := ["meta.file", "meta.shot", "meta.scope"] })
  let folded ← ch_exp.enum.foldlM
    (fun acc ikv => bgChannelStep params t_exp t_bg ch_bg acc ikv.1 ikv.2.1 ikv.2.2)
    (([], []) : List (String × Val) × List String)
  let out_tokens ← parsePath params.output_field
  let new1 ← bgCloneWithSet exp_payload out_tokens (.vdict folded.1)
  let new2 ← storeOriginalOpt params.store_original new1
    (.vdict [("time", .varr t_exp), ("channels", .vdict ch_exp)])
  let new3 ← pySetdefaultDict new2 "meta"
  let pr ← ensureUid new3
  let sourceV ← pyGet bgMetaV "source" .vnone
  let bgInfo := Val.vdict [("uid", bg_uid), ("source", sourceV),
    ("channels_skipped", .vlist (folded.2.map .vstr))]
  let new5 ← setMetaKey pr.2 "__background__" bgInfo
  recordHistoryOpt params.record_history new5
    (.vdict [("op_name", .vstr "background_subtract"),
      ("params", bgParamsAsDict params), ("background_uid", bg_uid),
      ("timestamp", .vstr now), ("output_uid", pr.1)])

/-- `background_subtract_many`: sequential map of `background_subtract_one`
over the experiment payloads against one fixed background. -/
def bgSubtractMany (exp_payloads : List Val) (bg_payload : Val)
    (params : BackgroundSubtractParams) (now : String) : Except PyErr (List Val) :=
  exp_payloads.mapM (fun p => bgSubtractOne p bg_payload params now)

/-! ### Peak detection (`template/detect_candidate_peaks.py`) -/

/-- `DetectCandidatePeaksParams`. -/
structure DetectCandidatePeaksParams where
  time_path : String := "data.time"
  channels_path : String := "data.channels"
  channel_keys : Option (List String) := none
  polarity : String := "normalized"
  noise_method : String := "mad"
  pretrigger_time_range : Option (ℚ × ℚ) := none
  threshold_sigma : ℚ := 5
  min_distance_samples : Int := 20
  min_width_samples : Int := 1
  max_peaks_per_channel : Option Nat := none
  reject_saturated : Bool := false
  saturation_level : Option ℚ := none
  store_regions : Bool := true
  store_snr : Bool := true

/-- `noise <= 0` for an `a·√b` scalar (with the `b ≥ 0` invariant,
`a·√b ≤ 0` iff `a ≤ 0` or `b = 0`). -/
def Scal.nonpos : Scal → Bool
  | .fin a b => a ≤ 0 || b ≤ 0
  | .inf => false

/-- `noise > 0` for an `a·√b` scalar. -/
def Scal.pos : Scal → Bool
  | .fin a b => 0 < a && 0 < b
  | .inf => true

/-- Multiply an `a·√b` scalar by a rational (`threshold_sigma * noise`). -/
def Scal.mulQ (c : ℚ) : Scal → Scal
  | .fin a b => .fin (c * a) b
  | .inf => .inf

/-- `amp / noise` for positive `noise = a·√b`:
`amp/(a√b) = (amp/(a*b))·√b`. -/
def Scal.divOf (amp : ℚ) : Scal → Scal
  | .fin a b => .fin (amp / (a * b)) b
  | .inf => .fin 0 1

/-- `v > a·√b` (respectively `v > ∞`), decided exactly over ℚ. -/
def gtScal (v : ℚ) : Scal → Bool
  | .inf => false
  | .fin a b =>
      if b ≤ 0 then 0 < v
      else if a = 0 then 0 < v
      else if 0 < a then 0 < v && a ^ 2 * b < v ^ 2
      else 0 < v || (v ≤ 0 && v ^ 2 < a ^ 2 * b)

/-- `_to_list`: numeric conversion of a channel / time value. -/
def toListF (v : Val) : Except PyErr (List ℚ) := asarrayQ v

/-- `statistics.median` with the `_median` empty-list guard. -/
def medianQ (values : List ℚ) : ℚ :=
  if values = [] then 0
  else
    let data := values.insertionSort (· ≤ ·)
    let n := data.length
    if n % 2 = 1 then data.getD (n / 2) 0
    else (data.getD (n / 2 - 1) 0 + data.getD (n / 2) 0) / 2

/-- `_percentile` (fallback linear-interpolation formula). -/
def percentileQ (values : List ℚ) (q : ℚ) : ℚ :=
  if values = [] then 0
  else
    let data := values.insertionSort (· ≤ ·)
    let k : ℚ := ((data.length : ℚ) - 1) * q / 100
    let f := ⌊k⌋
    let c := ⌈k⌉
    if f = c then data.getD k.floor.toNat 0
    else
      data.getD f.toNat 0 * ((c : ℚ) - k) + data.getD c.toNat 0 * (k - (f : ℚ))

/-- `_estimate_polarity`: sign maximizing positive peakiness. -/
def estimatePolarity (arr : List ℚ) : ℤ :=
  let median := medianQ arr
  let p99 := percentileQ arr 99
  let p1 := percentileQ arr 1
  if median - p1 ≤ p99 - median then 1 else -1

/-- `_estimate_noise`: `mad` (exactly rational), `rms` and
`std_pretrigger` (square roots of rational mean-square deviations). -/
def estimateNoise (arr : List ℚ) (method : String) (t : List ℚ)
    (pre : Option (ℚ × ℚ)) : Except PyErr Scal :=
  if method = "mad" then
    let med := medianQ arr
    let devs := arr.map (fun v => |v - med|)
    .ok (.fin (14826 / 10000 * medianQ devs) 1)
  else if method = "rms" then
    if arr = [] then .ok (.fin 0 1)
    else
      let mean := arr.sum / arr.length
      .ok (.fin 1 ((arr.map (fun v => (v - mean) ^ 2)).sum / arr.length))
  else if method = "std_pretrigger" then
    match pre with
    | none => .error (valueErr "pretrigger_time_range must be set for std_pretrigger noise estimation")
    | some pr =>
        let subset := (arr.zip t).filterMap
          (fun p => if pr.1 ≤ p.2 && p.2 ≤ pr.2 then some p.1 else none)
        if subset = [] then .ok (.fin 0 1)
        else
          let mean := subset.sum / subset.length
          .ok (.fin 1 ((subset.map (fun v => (v - mean) ^ 2)).sum / subset.length))
  else .error (specErr ("Unsupported noise estimation method: " ++ method))

/-- Loop of `_find_regions`: extract contiguous `true` runs as half-open
index intervals, closing a run still open at the end of the array. -/
def findRegionsGo : List Bool → Nat → Option Nat → List (Nat × Nat)
  | [], _, none => []
  | [], idx, some s => [(s, idx)]
  | f :: rest, idx, none =>
      if f then findRegionsGo rest (idx + 1) (some idx)
      else findRegionsGo rest (idx + 1) none
  | f :: rest, idx, some s =>
      if f then findRegionsGo rest (idx + 1) (some s)
      else (s, idx) :: findRegionsGo rest (idx + 1) none

/-- `_find_regions`. -/
def findRegions (mask : List Bool) : List (Nat × Nat) := findRegionsGo mask 0 none

/-- `np.argmax` / `max(range(len), key=...)`: index of the first occurrence
of the maximum. -/
def argmaxFirst (l : List ℚ) : Nat :=
  (l.enum.foldl (fun best p => if best.2 < p.2 then p else best) (0, l.headD 0)).1

/-- A candidate peak record. -/
structure Peak where
  i : Nat
  t : ℚ
  amp : ℚ
  region_start : Nat
  region_end : Nat
  snr : Scal
deriving Repr, DecidableEq

/-- Build the peak record of one surviving region: regional maximum
(first-occurring on ties), its amplitude and time, and the SNR. -/
def peakOfRegion (y tvals : List ℚ) (noise : Scal) (s e : Nat) : Peak :=
  let slice := (y.drop s).take (e - s)
  let li := argmaxFirst slice
  let ipeak := s + li
  let amp := y.getD ipeak 0
  { i := ipeak, t := tvals.getD ipeak 0, amp := amp,
    region_start := s, region_end := e,
    snr := if noise.pos then Scal.divOf amp noise else .inf }

/-- The region loop of `detect_candidate_peaks`: discard regions shorter
than `min_width_samples` (and empty slices), then record the regional
maxima. -/
def peaksFromRegions (p : DetectCandidatePeaksParams) (y tvals : List ℚ)
    (noise : Scal) (regions : List (Nat × Nat)) : List Peak :=
  regions.foldr (fun r acc =>
    if ((r.2 : Int) - (r.1 : Int)) < p.min_width_samples then acc
    else if (y.drop r.1).take (r.2 - r.1) = [] then acc
    else peakOfRegion y tvals noise r.1 r.2 :: acc) []

/-- Inner `while` of `_apply_deadtime`: consume candidates within
`min_distance` of the currently retained peak, keeping the
higher-amplitude one. -/
def dtConsume (d : Int) : Peak → List Peak → Peak × List Peak
  | cur, [] => (cur, [])
  | cur, q :: rest =>
      if (q.i : Int) - (cur.i : Int) < d then
        dtConsume d (if cur.amp < q.amp then q else cur) rest
      else (cur, q :: rest)

theorem dtConsume_len (d : Int) :
    ∀ (cur : Peak) (l : List Peak), ((dtConsume d cur l).2).length ≤ l.length
  | _, [] => le_refl _
  | cur, q :: rest => by
      rw [dtConsume]
      by_cases h : (q.i : Int) - (cur.i : Int) < d
      · simp only [h, if_true]
        exact le_trans (dtConsume_len d _ rest) (Nat.le_succ _)
      · simp [h]

/-- Outer `while` of `_apply_deadtime`: a greedy left-to-right sweep (fuel
keeps the recursion structural; `length + 1` always suffices because the
inner sweep consumes a prefix). -/
def dtGo (d : Int) : Nat → List Peak → List Peak
  | 0, _ => []
  | _ + 1, [] => []
  | fuel + 1, p :: rest =>
      (dtConsume d p rest).1 :: dtGo d fuel (dtConsume d p rest).2

/-- Stable-by-construction insertion used to model Python's stable
`sorted(peaks, key=lambda p: p["i"])`. -/
def insertByI (p : Peak) : List Peak → List Peak
  | [] => [p]
  | q :: rest => if p.i ≤ q.i then p :: q :: rest else q :: insertByI p rest

/-- Stable sort of peaks by index. -/
def sortByI (l : List Peak) : List Peak := l.foldr insertByI []

/-- `_apply_deadtime`. -/
def applyDeadtime (peaks : List Peak) (min_distance : Int) : List Peak :=
  if peaks = [] then []
  else dtGo min_distance (peaks.length + 1) (sortByI peaks)

/-- Stable insertion for `sorted(peaks, key=amp, reverse=True)`. -/
def insertByAmpDesc (p : Peak) : List Peak → List Peak
  | [] => [p]
  | q :: rest => if q.amp ≤ p.amp then p :: q :: rest else q :: insertByAmpDesc p rest

/-- Stable sort of peaks by descending amplitude. -/
def sortByAmpDesc (l : List Peak) : List Peak := l.foldr insertByAmpDesc []

/-- The polarity transform (`preserve` / `invert` / `auto`; any other
value, including `normalized`, is a no-op). -/
def applyPolarity (p : DetectCandidatePeaksParams) (y_raw : List ℚ) : List ℚ :=
  if p.polarity = "invert" then y_raw.map (fun v => -v)
  else if p.polarity = "preserve" then y_raw
  else if p.polarity = "auto" then
    let sign := estimatePolarity y_raw
    y_raw.map (fun v => (sign : ℚ) * v)
  else y_raw

/-- `threshold = threshold_sigma * noise`, `+∞` when the noise is `≤ 0`
(or NaN, which cannot arise in exact arithmetic). -/
def thresholdOf (p : DetectCandidatePeaksParams) (noise : Scal) : Scal :=
  if noise.nonpos then Scal.inf else noise.mulQ p.threshold_sigma

/-- `mask = samples strictly above the threshold`. -/
def maskOf (y : List ℚ) (threshold : Scal) : List Bool :=
  y.map (fun v => gtScal v threshold)

/-- The per-channel pipeline of `detect_candidate_peaks`: polarity
transform, noise estimation, thresholding, region extraction, dead-time
deduplication, saturation rejection and the per-channel cap.  Returns the
reported peaks together with the `noise` and `threshold` scalars. -/
def detectChannel (p : DetectCandidatePeaksParams) (t_values : List ℚ)
    (key : String) (chVal : Val) : Except PyErr (List Peak × Scal × Scal) := do
  let y_raw ← toListF chVal
  if y_raw.length ≠ t_values.length then
    .error (valueErr ("Channel " ++ key ++ " length does not match time length"))
  else do
  let y := applyPolarity p y_raw
  let noise ← estimateNoise y p.noise_method t_values p.pretrigger_time_range
  let threshold := thresholdOf p noise
  let mask := maskOf y threshold
  let regions := findRegions mask
  let peaks0 := peaksFromRegions p y t_values noise regions
  let peaks1 := applyDeadtime peaks0 p.min_distance_samples
  let peaks2 :=
    if p.reject_saturated then
      match p.saturation_level with
      | some lvl => peaks1.filter (fun pk => pk.amp < lvl)
      | none => peaks1
    else peaks1
  let peaks3 :=
    match p.max_peaks_per_channel with
    | some n => sortByI ((sortByAmpDesc peaks2).take n)
    | none => peaks2
  .ok (peaks3, noise, threshold)

/-- The `by_channel[key]` output record of one channel. -/
def channelRecord (p : DetectCandidatePeaksParams)
    (res : List Peak × Scal × Scal) : Val :=
  let peaks := res.1
  let base := [("i", Val.varr (peaks.map (fun pk => (pk.i : ℚ)))),
    ("t", Val.varr (peaks.map (fun pk => pk.t))),
    ("amp", Val.varr (peaks.map (fun pk => pk.amp))),
    ("noise", Val.vscal res.2.1),
    ("threshold", Val.vscal res.2.2)]
  let base := if p.store_snr then
      base ++ [("snr", Val.vlist (peaks.map (fun pk => Val.vscal pk.snr)))]
    else base
  let base := if p.store_regions then
      base ++ [("region_start", Val.varr (peaks.map (fun pk => (pk.region_start : ℚ)))),
        ("region_end", Val.varr (peaks.map (fun pk => (pk.region_end : ℚ))))]
    else base
  .vdict base

/-- `dataclasses.asdict` for `DetectCandidatePeaksParams`. -/
def dpParamsAsDict (p : DetectCandidatePeaksParams) : Val :=
  .vdict [("time_path", .vstr p.time_path), ("channels_path", .vstr p.channels_path),
    ("channel_keys", match p.channel_keys with
      | some ks => .vlist (ks.map .vstr)
      | none => .vnone),
    ("polarity", .vstr p.polarity), ("noise_method", .vstr p.noise_method),
    ("pretrigger_time_range", match p.pretrigger_time_range with
      | some pr => .vlist [.vnum pr.1, .vnum pr.2]
      | none => .vnone),
    ("threshold_sigma", .vnum p.threshold_sigma),
    ("min_distance_samples", .vnum (p.min_distance_samples : ℚ)),
    ("min_width_samples", .vnum (p.min_width_samples : ℚ)),
    ("max_peaks_per_channel", match p.max_peaks_per_channel with
      | some n => .vnum (n : ℚ)
      | none => .vnone),
    ("reject_saturated", .vbool p.reject_saturated),
    ("saturation_level", match p.saturation_level with
      | some l => .vnum l
      | none => .vnone),
    ("store_regions", .vbool p.store_regions),
    ("store_snr", .vbool p.store_snr)]

/-- Write `outer[k] = v` through the alias obtained from
`payload.setdefault(outer, {})`. -/
def setInnerKey (payload : Val) (outer k : String) (v : Val) : Except PyErr Val :=
  match payload with
  | .vdict es =>
      match dlookup es outer with
      | some (.vdict ms) => .ok (.vdict (dset es outer (.vdict (dset ms k v))))
      | some _ => .error (typeErr (outer ++ " is not a dict"))
      | none => .error (typeErr (outer ++ " missing"))
  | _ => .error (typeErr "payload is not a dict")

/-- `detect_candidate_peaks` (the nondeterministic timestamp is passed in
as `now`). -/
def detectCandidatePeaks (payload : Val) (params : DetectCandidatePeaksParams)
    (now : String) : Except PyErr Val := do
  let t_valuesV ← (resolvePath payload params.time_path).mapError
    (fun e => if e.cls = "PathResolutionError" then
        specErr ("Time path resolution failed: " ++ e.msg)
      else e)
  let t_values ← toListF t_valuesV
  let channelsV ← (resolvePath payload params.channels_path).mapError
    (fun e => if e.cls = "PathResolutionError" then
        specErr ("Channels path resolution failed: " ++ e.msg)
      else e)
  let channels : List (String × Val) ← match channelsV with
    | .vdict es => pure es
    | _ => throw (valueErr ("Expected channels to be a dict at " ++ params.channels_path))
  let channel_keys := match params.channel_keys with
    | some (k :: ks) => k :: ks
    | _ => channels.map (fun e : String × Val => e.1)
  let by_channel ← channel_keys.foldlM
    (fun (acc : List (String × Val)) key =>
      if !dmem channels key then pure acc
      else do
        let res ← detectChannel params t_values key ((dlookup channels key).getD .vnone)
        pure (dset acc key (channelRecord params res)))
    []
  let new1 ← pySetdefaultDict payload "events"
  let cp := Val.vdict [("by_channel", .vdict by_channel),
    ("params", dpParamsAsDict params)]
  let new2 ← setInnerKey new1 "events" "candidate_peaks" cp
  let new3 ← pySetdefaultDict new2 "meta"
  let pr ← ensureUid new3
  let entry := Val.vdict [("op_name", .vstr "detect_candidate_peaks"),
    ("params", dpParamsAsDict params), ("timestamp", .vstr now),
    ("output_uid", pr.1)]
  appendHistory pr.2 entry

/-! ### Basic monad and dictionary lemmas -/

theorem bindE_ok {α β : Type} (a : α) (f : α → Except PyErr β) :
    (Bind.bind (Except.ok a) f) = f a := rfl

theorem bindE_error {α β : Type} (e : PyErr) (f : α → Except PyErr β) :
    (Bind.bind (Except.error e : Except PyErr α) f) = .error e := rfl

theorem dlookup_dset_ne (es : List (String × Val)) (k k' : String) (v : Val)
    (h : k' ≠ k) : dlookup (dset es k v) k' = dlookup es k' := by
  induction es with
  | nil =>
      simp only [dset, dlookup, List.find?]
      rw [decide_eq_false (Ne.symm h)]
  | cons e rest ih =>
      by_cases he : e.1 = k
      · simp only [dset, he, if_true]
        simp only [dlookup, List.find?]
        rw [decide_eq_false (Ne.symm h),
          decide_eq_false (fun hc => (Ne.symm h) (he ▸ hc))]
      · simp only [dset, he, if_false]
        by_cases h2 : e.1 = k'
        · simp only [dlookup, List.find?]
          rw [decide_eq_true h2]
        · simp only [dlookup, List.find?] at ih ⊢
          rw [decide_eq_false h2]
          exact ih

/-! ### C2: set-then-resolve round trip -/

/-- C2: for every nested mapping root, every token path and every value,
if the structural set (`_clone_with_set` of `transform/core.py`) succeeds
then resolving the same token path on the returned root yields exactly the
value that was set. -/
theorem C2_set_then_resolve_roundtrip :
    ∀ (ts : List String) (root v r : Val),
    cloneWithSet root ts v = .ok r → resolveTokens r ts = .ok v := by
  intro ts
  induction ts with
  | nil =>
      intro root v r h
      simp only [cloneWithSet] at h
      cases h
      cases v <;> rfl
  | cons t ts ih =>
      intro root v r h
      cases root with
      | vdict es =>
          simp only [cloneWithSet] at h
          cases hl : dlookup es t with
          | some hit =>
              rw [hl] at h
              dsimp only at h
              cases hsub : cloneWithSet hit ts v with
              | error e => rw [hsub, bindE_error] at h; cases h
              | ok sub =>
                  rw [hsub, bindE_ok] at h
                  cases h
                  simp only [resolveTokens, dlookup_dset]
                  exact ih hit v sub hsub
          | none =>
              rw [hl] at h
              dsimp only at h
              cases ts with
              | nil =>
                  cases h
                  simp only [resolveTokens, dlookup_dset]
              | cons t2 ts2 =>
                  cases hsub : cloneWithSet (.vdict []) (t2 :: ts2) v with
                  | error e => rw [hsub, bindE_error] at h; cases h
                  | ok sub =>
                      rw [hsub, bindE_ok] at h
                      cases h
                      simp only [resolveTokens, dlookup_dset]
                      exact ih _ v sub hsub
      | vnone => simp [cloneWithSet] at h
      | vbool b => simp [cloneWithSet] at h
      | vnum q => simp [cloneWithSet] at h
      | vstr s => simp [cloneWithSet] at h
      | vscal x => simp [cloneWithSet] at h
      | varr xs => simp [cloneWithSet] at h
      | vlist xs => simp [cloneWithSet] at h

/-- Witness for C2 at a concrete root, path and value. -/
theorem C2_witness :
    cloneWithSet (.vdict [("data", .vdict [("time", .varr [1])])])
      ["data", "channels", "A"] (.varr [7]) =
      .ok (.vdict [("data", .vdict [("time", .varr [1]),
        ("channels", .vdict [("A", .varr [7])])])]) ∧
    resolveTokens (.vdict [("data", .vdict [("time", .varr [1]),
        ("channels", .vdict [("A", .varr [7])])])])
      ["data", "channels", "A"] = .ok (.varr [7]) := by
  constructor
  · with_unfolding_all rfl
  · exact C2_set_then_resolve_roundtrip ["data", "channels", "A"]
      (.vdict [("data", .vdict [("time", .varr [1])])]) (.varr [7]) _
      (by with_unfolding_all rfl)

/-! ### Lemmas about the background-subtraction structural set -/

theorem resolve_after_bgCloneWithSet :
    ∀ (ts : List String) (root v r : Val),
    bgCloneWithSet root ts v = .ok r → resolveTokens r ts = .ok v := by
  intro ts
  induction ts with
  | nil => intro root v r h; simp [bgCloneWithSet] at h
  | cons t ts ih =>
      intro root v r h
      cases root with
      | vdict es =>
          cases ts with
          | nil =>
              simp only [bgCloneWithSet] at h
              cases h
              simp only [resolveTokens, dlookup_dset]
          | cons t2 ts2 =>
              simp only [bgCloneWithSet] at h
              cases hl : dlookup es t with
              | none =>
                  rw [hl] at h
                  dsimp only at h
                  cases hsub : bgCloneWithSet (.vdict []) (t2 :: ts2) v with
                  | error e => rw [hsub, bindE_error] at h; cases h
                  | ok sub =>
                      rw [hsub, bindE_ok] at h
                      cases h
                      simp only [resolveTokens, dlookup_dset]
                      exact ih _ v sub hsub
              | some hit =>
                  rw [hl] at h
                  cases hit with
                  | vdict es1 =>
                      dsimp only at h
                      cases hsub : bgCloneWithSet (.vdict es1) (t2 :: ts2) v with
                      | error e => rw [hsub, bindE_error] at h; cases h
                      | ok sub =>
                          rw [hsub, bindE_ok] at h
                          cases h
                          simp only [resolveTokens, dlookup_dset]
                          exact ih _ v sub hsub
                  | vnone => cases h
                  | vbool b => cases h
                  | vnum q => cases h
                  | vstr s => cases h
                  | vscal x => cases h
                  | varr xs => cases h
                  | vlist xs => cases h
      | vnone => cases ts <;> simp [bgCloneWithSet] at h
      | vbool b => cases ts <;> simp [bgCloneWithSet] at h
      | vnum q => cases ts <;> simp [bgCloneWithSet] at h
      | vstr s => cases ts <;> simp [bgCloneWithSet] at h
      | vscal x => cases ts <;> simp [bgCloneWithSet] at h
      | varr xs => cases ts <;> simp [bgCloneWithSet] at h
      | vlist xs => cases ts <;> simp [bgCloneWithSet] at h

/-- Setting below token `t` leaves every other top-level entry unchanged. -/
theorem bgCloneWithSet_frame (t : String) (ts : List String) (v : Val)
    (es : List (String × Val)) (r : Val)
    (h : bgCloneWithSet (.vdict es) (t :: ts) v = .ok r) :
    ∃ es', r = .vdict es' ∧ ∀ k, k ≠ t → dlookup es' k = dlookup es k := by
  cases ts with
  | nil =>
      simp only [bgCloneWithSet] at h
      cases h
      exact ⟨_, rfl, fun k hk => dlookup_dset_ne es t k v hk⟩
  | cons t2 ts2 =>
      simp only [bgCloneWithSet] at h
      cases hl : dlookup es t with
      | none =>
          rw [hl] at h
          dsimp only at h
          cases hsub : bgCloneWithSet (.vdict []) (t2 :: ts2) v with
          | error e => rw [hsub, bindE_error] at h; cases h
          | ok sub =>
              rw [hsub, bindE_ok] at h
              cases h
              exact ⟨_, rfl, fun k hk => dlookup_dset_ne es t k sub hk⟩
      | some hit =>
          rw [hl] at h
          cases hit with
          | vdict es1 =>
              dsimp only at h
              cases hsub : bgCloneWithSet (.vdict es1) (t2 :: ts2) v with
              | error e => rw [hsub, bindE_error] at h; cases h
              | ok sub =>
                  rw [hsub, bindE_ok] at h
                  cases h
                  exact ⟨_, rfl, fun k hk => dlookup_dset_ne es t k sub hk⟩
          | vnone => cases h
          | vbool b => cases h
          | vnum q => cases h
          | vstr s => cases h
          | vscal x => cases h
          | varr xs => cases h
          | vlist xs => cases h

/-- The `store_original` step only touches the `meta` entry. -/
theorem storeOriginalStep_frame (es : List (String × Val)) (orig r : Val)
    (h : storeOriginalStep (.vdict es) orig = .ok r) :
    ∃ es', r = .vdict es' ∧ ∀ k, k ≠ "meta" → dlookup es' k = dlookup es k := by
  unfold storeOriginalStep at h
  cases hc : bgCloneWithSet (.vdict es) ["meta", "__original__"] orig with
  | ok v =>
      rw [hc] at h
      cases h
      exact bgCloneWithSet_frame _ _ _ _ _ hc
  | error e =>
      rw [hc] at h
      by_cases hcls : e.cls = "PathResolutionError"
      · simp only [hcls, if_true] at h
        set es1 := if dmem es "meta" then es else dset es "meta" (.vdict []) with hes1
        cases hm : dlookup es1 "meta" with
        | none => rw [hm] at h; cases h
        | some mv =>
            rw [hm] at h
            cases mv with
            | vdict ms =>
                dsimp only at h
                cases h
                refine ⟨_, rfl, fun k hk => ?_⟩
                rw [dlookup_dset_ne _ _ _ _ hk, hes1]
                by_cases hdm : dmem es "meta"
                · simp [hdm]
                · simp only [hdm, if_false]
                  exact dlookup_dset_ne es "meta" k _ hk
            | vnone => cases h
            | vbool b => cases h
            | vnum q => cases h
            | vstr s => cases h
            | vscal x => cases h
            | varr xs => cases h
            | vlist xs => cases h
      · simp only [hcls, if_false] at h
        cases h

/-- `setdefault` only touches the given key. -/
theorem pySetdefaultDict_frame (es : List (String × Val)) (k0 : String) (r : Val)
    (h : pySetdefaultDict (.vdict es) k0 = .ok r) :
    ∃ es', r = .vdict es' ∧ ∀ k, k ≠ k0 → dlookup es' k = dlookup es k := by
  simp only [pySetdefaultDict] at h
  cases h
  refine ⟨_, rfl, fun k hk => ?_⟩
  by_cases hdm : dmem es k0
  · simp [hdm]
  · simp only [hdm, if_false]
    exact dlookup_dset_ne es k0 k _ hk

/-- `_ensure_uid` only touches the `meta` entry. -/
theorem ensureUid_frame (es : List (String × Val)) (pr : Val × Val)
    (h : ensureUid (.vdict es) = .ok pr) :
    ∃ es', pr.2 = .vdict es' ∧ ∀ k, k ≠ "meta" → dlookup es' k = dlookup es k := by
  simp only [ensureUid] at h
  set es1 := if dmem es "meta" then es else dset es "meta" (.vdict []) with hes1
  have hbase : ∀ k, k ≠ "meta" → dlookup es1 k = dlookup es k := by
    intro k hk
    rw [hes1]
    by_cases hdm : dmem es "meta"
    · simp [hdm]
    · simp only [hdm, if_false]
      exact dlookup_dset_ne es "meta" k _ hk
  cases hm : dlookup es1 "meta" with
  | none => rw [hm] at h; cases h
  | some mv =>
      rw [hm] at h
      cases mv with
      | vdict ms =>
          dsimp only at h
          cases hu : dlookup ms "__uid__" with
          | some u =>
              rw [hu] at h
              cases h
              exact ⟨_, rfl, hbase⟩
          | none =>
              rw [hu] at h
              cases h
              refine ⟨_, rfl, fun k hk => ?_⟩
              rw [dlookup_dset_ne _ _ _ _ hk]
              exact hbase k hk
      | vnone => cases h
      | vbool b => cases h
      | vnum q => cases h
      | vstr s => cases h
      | vscal x => cases h
      | varr xs => cases h
      | vlist xs => cases h

/-- `meta[k] = v` only touches the `meta` entry. -/
theorem setMetaKey_frame (es : List (String × Val)) (k0 : String) (v r : Val)
    (h : setMetaKey (.vdict es) k0 v = .ok r) :
    ∃ es', r = .vdict es' ∧ ∀ k, k ≠ "meta" → dlookup es' k = dlookup es k := by
  simp only [setMetaKey] at h
  cases hm : dlookup es "meta" with
  | none => rw [hm] at h; cases h
  | some mv =>
      rw [hm] at h
      cases mv with
      | vdict ms =>
          dsimp only at h
          cases h
          exact ⟨_, rfl, fun k hk => dlookup_dset_ne es "meta" k _ hk⟩
      | vnone => cases h
      | vbool b => cases h
      | vnum q => cases h
      | vstr s => cases h
      | vscal x => cases h
      | varr xs => cases h
      | vlist xs => cases h

/-- The history append only touches the `meta` entry. -/
theorem appendHistory_frame (es : List (String × Val)) (entry r : Val)
    (h : appendHistory (.vdict es) entry = .ok r) :
    ∃ es', r = .vdict es' ∧ ∀ k, k ≠ "meta" → dlookup es' k = dlookup es k := by
  simp only [appendHistory] at h
  cases hm : dlookup es "meta" with
  | none => rw [hm] at h; cases h
  | some mv =>
      rw [hm] at h
      cases mv with
      | vdict ms =>
          dsimp only at h
          set ms1 := if dmem ms "__history__" then ms
            else dset ms "__history__" (.vlist []) with hms1
          cases hh : dlookup ms1 "__history__" with
          | none => rw [hh] at h; cases h
          | some hv =>
              rw [hh] at h
              cases hv with
              | vlist hs =>
                  dsimp only at h
                  cases h
                  exact ⟨_, rfl, fun k hk => dlookup_dset_ne es "meta" k _ hk⟩
              | vnone => cases h
              | vbool b => cases h
              | vnum q => cases h
              | vstr s => cases h
              | vscal x => cases h
              | varr xs => cases h
              | vdict ds => cases h
      | vnone => cases h
      | vbool b => cases h
      | vnum q => cases h
      | vstr s => cases h
      | vscal x => cases h
      | varr xs => cases h
      | vlist xs => cases h

/-- Inside `meta`, the history append only touches `__history__`. -/
theorem appendHistory_meta_frame (es : List (String × Val)) (ms : List (String × Val))
    (entry r : Val)
    (hm : dlookup es "meta" = some (.vdict ms))
    (h : appendHistory (.vdict es) entry = .ok r) :
    ∃ es' ms', r = .vdict es' ∧ dlookup es' "meta" = some (.vdict ms') ∧
      ∀ k, k ≠ "__history__" → dlookup ms' k = dlookup ms k := by
  simp only [appendHistory, hm] at h
  set ms1 := if dmem ms "__history__" then ms
    else dset ms "__history__" (.vlist []) with hms1
  have hbase : ∀ k, k ≠ "__history__" → dlookup ms1 k = dlookup ms k := by
    intro k hk
    rw [hms1]
    by_cases hdm : dmem ms "__history__"
    · simp [hdm]
    · simp only [hdm, if_false]
      exact dlookup_dset_ne ms "__history__" k _ hk
  cases hh : dlookup ms1 "__history__" with
  | none => rw [hh] at h; cases h
  | some hv =>
      rw [hh] at h
      cases hv with
      | vlist hs =>
          dsimp only at h
          cases h
          refine ⟨_, _, rfl, dlookup_dset _ _ _, fun k hk => ?_⟩
          rw [dlookup_dset_ne _ _ _ _ hk]
          exact hbase k hk
      | vnone => cases h
      | vbool b => cases h
      | vnum q => cases h
      | vstr s => cases h
      | vscal x => cases h
      | varr xs => cases h
      | vdict ds => cases h

/-- Writing `meta[k] = v` makes `meta.k` resolve to `v`. -/
theorem setMetaKey_meta_get (es ms : List (String × Val)) (k0 : String) (v r : Val)
    (hm : dlookup es "meta" = some (.vdict ms))
    (h : setMetaKey (.vdict es) k0 v = .ok r) :
    ∃ es', r = .vdict es' ∧ dlookup es' "meta" = some (.vdict (dset ms k0 v)) := by
  simp only [setMetaKey, hm] at h
  cases h
  exact ⟨_, rfl, dlookup_dset _ _ _⟩

theorem str_append_left_cancel {a b c : String} (h : a ++ b = a ++ c) : b = c := by
  have hd := congrArg String.data h
  simp only [String.data_append] at hd
  have := List.append_cancel_left hd
  cases b
  cases c
  exact congrArg String.mk this

/-! ### The channel loop of `background_subtract_one` -/

section BgFold

variable (params : BackgroundSubtractParams) (t_exp t_bg : List ℚ)
variable (ch_bg : List (String × Val))

/-- One loop step only sets the entry `prefix ++ key` and only appends to
the skipped list. -/
theorem bgStep_frame (acc acc' : List (String × Val) × List String)
    (idx : Nat) (k : String) (ev : Val)
    (h : bgChannelStep params t_exp t_bg ch_bg acc idx k ev = .ok acc') :
    (∀ key, key ≠ params.result_channel_prefix0 ++ k →
      dlookup acc'.1 key = dlookup acc.1 key) ∧
    (∀ s, s ∈ acc.2 → s ∈ acc'.2) := by
  obtain ⟨rc, sk⟩ := acc
  simp only [bgChannelStep] at h
  cases hmk : bgMatchKey params ch_bg idx k with
  | error e => rw [hmk, bindE_error] at h; cases h
  | ok mko =>
      rw [hmk, bindE_ok] at h
      cases mko with
      | none =>
          simp only [if_true] at h
          by_cases hpol : params.missing_channel_policy = "error"
          · simp only [hpol, if_true] at h; cases h
          · simp only [hpol, if_false] at h
            cases h
            exact ⟨fun key hk => dlookup_dset_ne rc _ key ev hk,
              fun s hs => List.mem_append_left _ hs⟩
      | some mk =>
          by_cases hmem : dmem ch_bg mk
          · simp only [hmem, Bool.not_true, Bool.false_eq_true, if_false] at h
            rw [show ((some mk).getD "" : String) = mk from rfl] at h
            cases hb0 : asarrayQ ((dlookup ch_bg mk).getD .vnone) with
            | error e => rw [hb0, bindE_error] at h; cases h
            | ok b0 =>
                rw [hb0, bindE_ok] at h
                by_cases hta : params.time_align = "interp_bg_to_exp"
                · simp only [hta, if_true] at h
                  cases hbi : interpF t_exp t_bg b0 with
                  | error e => rw [hbi, bindE_error] at h; cases h
                  | ok b =>
                      rw [hbi, bindE_ok] at h
                      cases he : asarrayQ ev with
                      | error e => rw [he, bindE_error] at h; cases h
                      | ok e =>
                          rw [he, bindE_ok] at h
                          cases h
                          exact ⟨fun key hk => dlookup_dset_ne rc _ key _ hk,
                            fun s hs => hs⟩
                · simp only [hta, if_false] at h
                  rw [bindE_ok] at h
                  cases he : asarrayQ ev with
                  | error e => rw [he, bindE_error] at h; cases h
                  | ok e =>
                      rw [he, bindE_ok] at h
                      cases h
                      exact ⟨fun key hk => dlookup_dset_ne rc _ key _ hk,
                        fun s hs => hs⟩
          · simp only [hmem, Bool.not_false, if_true] at h
            by_cases hpol : params.missing_channel_policy = "error"
            · simp only [hpol, if_true] at h; cases h
            · simp only [hpol, if_false] at h
              cases h
              exact ⟨fun key hk => dlookup_dset_ne rc _ key ev hk,
                fun s hs => List.mem_append_left _ hs⟩

/-- The whole loop leaves entries outside the processed keys unchanged and
only grows the skipped list. -/
theorem bgFold_frame : ∀ (l : List (String × Val)) (n : Nat)
    (acc res : List (String × Val) × List String),
    ((List.enumFrom n l).foldlM (fun acc ikv =>
        bgChannelStep params t_exp t_bg ch_bg acc ikv.1 ikv.2.1 ikv.2.2) acc)
      = .ok res →
    (∀ key, (∀ p ∈ l, params.result_channel_prefix0 ++ p.1 ≠ key) →
      dlookup res.1 key = dlookup acc.1 key) ∧
    (∀ s, s ∈ acc.2 → s ∈ res.2) := by
  intro l
  induction l with
  | nil =>
      intro n acc res h
      simp only [List.enumFrom, List.foldlM] at h
      cases h
      exact ⟨fun _ _ => rfl, fun _ hs => hs⟩
  | cons p l ih =>
      intro n acc res h
      obtain ⟨k, ev⟩ := p
      simp only [List.enumFrom, List.foldlM] at h
      cases hstep : bgChannelStep params t_exp t_bg ch_bg acc n k ev with
      | error e => rw [hstep, bindE_error] at h; cases h
      | ok acc1 =>
          rw [hstep, bindE_ok] at h
          obtain ⟨hframe1, hskip1⟩ :=
            bgStep_frame params t_exp t_bg ch_bg acc acc1 n k ev hstep
          obtain ⟨hframe2, hskip2⟩ := ih (n + 1) acc1 res h
          constructor
          · intro key hkey
            rw [hframe2 key (fun q hq => hkey q (List.mem_cons_of_mem _ hq)),
              hframe1 key (Ne.symm (hkey (k, ev) (List.mem_cons_self _ _)))]
          · exact fun s hs => hskip2 s (hskip1 s hs)

/-- The per-entry behavior of the loop: a channel with no matching
background channel is emitted verbatim (under `prefix ++ key`) and
recorded in the skipped list; a matched channel is emitted as the scaled
subtraction of the (possibly interpolated) background values. -/
theorem bgFold_entry : ∀ (l : List (String × Val)) (n : Nat)
    (acc res : List (String × Val) × List String),
    ((List.enumFrom n l).foldlM (fun acc ikv =>
        bgChannelStep params t_exp t_bg ch_bg acc ikv.1 ikv.2.1 ikv.2.2) acc)
      = .ok res →
    (l.map Prod.fst).Nodup →
    ∀ j k ev, l.get? j = some (k, ev) →
    ((bgMatchKey params ch_bg (n + j) k = .ok none ∨
      (∃ mk, bgMatchKey params ch_bg (n + j) k = .ok (some mk) ∧
        dmem ch_bg mk = false)) →
      dlookup res.1 (params.result_channel_prefix0 ++ k) = some ev ∧ k ∈ res.2) ∧
    (∀ mk bgv b0 b e,
      bgMatchKey params ch_bg (n + j) k = .ok (some mk) →
      dmem ch_bg mk = true →
      dlookup ch_bg mk = some bgv →
      asarrayQ bgv = .ok b0 →
      (if params.time_align = "interp_bg_to_exp" then interpF t_exp t_bg b0
        else .ok b0) = .ok b →
      asarrayQ ev = .ok e →
      dlookup res.1 (params.result_channel_prefix0 ++ k) =
        some (.varr (scaledSubtract e b params.exp_scale params.bg_scale))) := by
  intro l
  induction l with
  | nil => intro n acc res h hnd j k ev hj; cases hj
  | cons p l ih =>
      intro n acc res h hnd j k ev hj
      obtain ⟨k0, ev0⟩ := p
      simp only [List.enumFrom, List.foldlM] at h
      cases hstep : bgChannelStep params t_exp t_bg ch_bg acc n k0 ev0 with
      | error e => rw [hstep, bindE_error] at h; cases h
      | ok acc1 =>
          rw [hstep, bindE_ok] at h
          cases j with
          | succ j' =>
              have hnd' := (List.nodup_cons.mp hnd).2
              have hj' : l.get? j' = some (k, ev) := hj
              have harith : n + (j' + 1) = (n + 1) + j' := by omega
              have := ih (n + 1) acc1 res h hnd' j' k ev hj'
              rw [harith]
              exact this
          | zero =>
              have hpair : (k0, ev0) = (k, ev) := by
                simpa [List.get?] using hj
              have hk : k0 = k := congrArg Prod.fst hpair
              have hev : ev0 = ev := congrArg Prod.snd hpair
              subst hk
              subst hev
              have hnotin : k0 ∉ l.map Prod.fst := (List.nodup_cons.mp hnd).1
              have hkey : ∀ p ∈ l, params.result_channel_prefix0 ++ p.1 ≠
                  params.result_channel_prefix0 ++ k0 :=
                fun p hp hc =>
                  hnotin (List.mem_map.mpr ⟨p, hp, str_append_left_cancel hc⟩)
              constructor
              · intro hmiss
                rw [Nat.add_zero] at hmiss
                obtain ⟨rca, ska⟩ := acc
                simp only [bgChannelStep] at hstep
                rcases hmiss with hmk | ⟨mk, hmk, hmem⟩
                · rw [hmk, bindE_ok] at hstep
                  simp only [if_true] at hstep
                  by_cases hpol : params.missing_channel_policy = "error"
                  · simp only [hpol, if_true] at hstep; cases hstep
                  · simp only [hpol, if_false] at hstep
                    cases hstep
                    obtain ⟨hfr, hsk⟩ :=
                      bgFold_frame params t_exp t_bg ch_bg l (n + 1) _ res h
                    refine ⟨?_, hsk _ (by simp)⟩
                    rw [hfr _ hkey]
                    exact dlookup_dset _ _ _
                · rw [hmk, bindE_ok] at hstep
                  simp only [hmem, Bool.not_false, if_true] at hstep
                  by_cases hpol : params.missing_channel_policy = "error"
                  · simp only [hpol, if_true] at hstep; cases hstep
                  · simp only [hpol, if_false] at hstep
                    cases hstep
                    obtain ⟨hfr, hsk⟩ :=
                      bgFold_frame params t_exp t_bg ch_bg l (n + 1) _ res h
                    refine ⟨?_, hsk _ (by simp)⟩
                    rw [hfr _ hkey]
                    exact dlookup_dset _ _ _
              · intro mk bgv b0 b e hmk hmem hbgv hb0 hb he
                rw [Nat.add_zero] at hmk
                obtain ⟨rca, ska⟩ := acc
                simp only [bgChannelStep] at hstep
                rw [hmk, bindE_ok] at hstep
                simp only [hmem, Bool.not_true, Bool.false_eq_true,
                  if_false] at hstep
                rw [show ((some mk).getD "" : String) = mk from rfl] at hstep
                rw [hbgv] at hstep
                rw [show ((some bgv).getD Val.vnone) = bgv from rfl] at hstep
                rw [hb0, bindE_ok] at hstep
                by_cases hta : params.time_align = "interp_bg_to_exp"
                · rw [if_pos hta] at hb
                  simp only [hta, if_true] at hstep
                  rw [hb, bindE_ok] at hstep
                  rw [he, bindE_ok] at hstep
                  cases hstep
                  obtain ⟨hfr, _⟩ :=
                    bgFold_frame params t_exp t_bg ch_bg l (n + 1) _ res h
                  rw [hfr _ hkey]
                  exact dlookup_dset _ _ _
                · rw [if_neg hta] at hb
                  cases hb
                  simp only [hta, if_false] at hstep
                  rw [bindE_ok] at hstep
                  rw [he, bindE_ok] at hstep
                  cases hstep
                  obtain ⟨hfr, _⟩ :=
                    bgFold_frame params t_exp t_bg ch_bg l (n + 1) _ res h
                  rw [hfr _ hkey]
                  exact dlookup_dset _ _ _

end BgFold

theorem mapErr_ok {α : Type} (f : PyErr → PyErr) (a : α) :
    (Except.mapError f (.ok a) : Except PyErr α) = .ok a := rfl

/-- A successful structural set on a non-empty token path starts and ends
at dictionaries. -/
theorem bgCloneWithSet_ok_shape (root : Val) (t : String) (ts : List String)
    (v r : Val) (h : bgCloneWithSet root (t :: ts) v = .ok r) :
    ∃ es es', root = .vdict es ∧ r = .vdict es' := by
  cases root with
  | vdict es =>
      obtain ⟨es', hr, _⟩ := bgCloneWithSet_frame t ts v es r h
      exact ⟨es, es', rfl, hr⟩
  | vnone => cases ts <;> simp [bgCloneWithSet] at h
  | vbool b => cases ts <;> simp [bgCloneWithSet] at h
  | vnum q => cases ts <;> simp [bgCloneWithSet] at h
  | vstr s => cases ts <;> simp [bgCloneWithSet] at h
  | vscal x => cases ts <;> simp [bgCloneWithSet] at h
  | varr xs => cases ts <;> simp [bgCloneWithSet] at h
  | vlist xs => cases ts <;> simp [bgCloneWithSet] at h

/-- Shape of a successful `meta[k] = v` write. -/
theorem setMetaKey_ok_shape (es : List (String × Val)) (k0 : String) (v r : Val)
    (h : setMetaKey (.vdict es) k0 v = .ok r) :
    ∃ ms, dlookup es "meta" = some (.vdict ms) ∧
      r = .vdict (dset es "meta" (.vdict (dset ms k0 v))) := by
  simp only [setMetaKey] at h
  cases hm : dlookup es "meta" with
  | none => rw [hm] at h; cases h
  | some mv =>
      rw [hm] at h
      cases mv with
      | vdict ms => dsimp only at h; cases h; exact ⟨ms, rfl, rfl⟩
      | vnone => cases h
      | vbool b => cases h
      | vnum q => cases h
      | vstr s => cases h
      | vscal x => cases h
      | varr xs => cases h
      | vlist xs => cases h

theorem resolveTokens_congr_head (es es' : List (String × Val)) (t : String)
    (ts : List String) (h : dlookup es' t = dlookup es t) :
    resolveTokens (.vdict es') (t :: ts) = resolveTokens (.vdict es) (t :: ts) := by
  simp only [resolveTokens, h]

/-- Inversion of a successful `background_subtract_one` call: the channel
loop succeeded, its result-channel mapping is what `output_field` resolves
to on the output (when `output_field` does not start at `meta`), and the
skipped keys are recorded at `meta.__background__.channels_skipped`. -/
theorem bgSubtractOne_inversion
    (exp bg : Val) (params : BackgroundSubtractParams) (now : String) (out : Val)
    (tev tbv : Val) (t_exp t_bg : List ℚ) (chexp chbg : List (String × Val))
    (ot : String) (ots : List String)
    (h : bgSubtractOne exp bg params now = .ok out)
    (hte : resolvePath exp params.time_path = .ok tev)
    (hteq : asarrayQ tev = .ok t_exp)
    (hce : resolvePath exp params.channels_path = .ok (.vdict chexp))
    (htb : resolvePath bg params.time_path = .ok tbv)
    (htbq : asarrayQ tbv = .ok t_bg)
    (hcb : resolvePath bg params.channels_path = .ok (.vdict chbg))
    (hot : parsePath params.output_field = .ok (ot :: ots)) :
    ∃ folded : List (String × Val) × List String,
      chexp.enum.foldlM (fun acc ikv =>
        bgChannelStep params t_exp t_bg chbg acc ikv.1 ikv.2.1 ikv.2.2)
        (([], []) : List (String × Val) × List String) = .ok folded ∧
      (ot ≠ "meta" → resolvePath out params.output_field = .ok (.vdict folded.1)) ∧
      (∃ info, resolvePath out "meta.__background__" = .ok (.vdict info) ∧
        dlookup info "channels_skipped" = some (.vlist (folded.2.map .vstr))) := by
  simp only [bgSubtractOne] at h
  rw [hte, mapErr_ok, bindE_ok] at h
  rw [hteq, bindE_ok] at h
  rw [hce, mapErr_ok, bindE_ok] at h
  rw [htb, mapErr_ok, bindE_ok] at h
  rw [htbq, bindE_ok] at h
  rw [hcb, mapErr_ok, bindE_ok] at h
  rw [show ensureDictV (.vdict chexp) params.channels_path = .ok chexp from rfl,
    bindE_ok] at h
  rw [show ensureDictV (.vdict chbg) params.channels_path = .ok chbg from rfl,
    bindE_ok] at h
  cases hck : bgTimeCheck params t_exp t_bg with
  | error e => rw [hck, bindE_error] at h; cases h
  | ok u =>
  rw [hck, bindE_ok] at h
  cases hbm : pyGet bg "meta" (.vdict []) with
  | error e => rw [hbm, bindE_error] at h; cases h
  | ok bgMetaV =>
  rw [hbm, bindE_ok] at h
  cases huid : pyGet bgMetaV "__uid__" .vnone with
  | error e => rw [huid, bindE_error] at h; cases h
  | ok uidV =>
  rw [huid, bindE_ok] at h
  cases hfold : chexp.enum.foldlM (fun acc ikv =>
      bgChannelStep params t_exp t_bg chbg acc ikv.1 ikv.2.1 ikv.2.2)
      (([], []) : List (String × Val) × List String) with
  | error e => rw [hfold, bindE_error] at h; cases h
  | ok folded =>
  rw [hfold, bindE_ok] at h
  rw [hot, bindE_ok] at h
  refine ⟨folded, rfl, ?_⟩
  cases hclone : bgCloneWithSet exp (ot :: ots) (.vdict folded.1) with
  | error e => rw [hclone, bindE_error] at h; cases h
  | ok new1 =>
  rw [hclone, bindE_ok] at h
  obtain ⟨es0, es1, hexp_shape, hnew1⟩ := bgCloneWithSet_ok_shape _ _ _ _ _ hclone
  subst hnew1
  have hres1 : resolveTokens (.vdict es1) (ot :: ots) = .ok (.vdict folded.1) :=
    resolve_after_bgCloneWithSet _ _ _ _ hclone
  cases hso : storeOriginalOpt params.store_original (.vdict es1)
      (.vdict [("time", .varr t_exp), ("channels", .vdict chexp)]) with
  | error e => rw [hso, bindE_error] at h; cases h
  | ok new2 =>
  rw [hso, bindE_ok] at h
  have h2 : ∃ es2, new2 = .vdict es2 ∧
      ∀ k, k ≠ "meta" → dlookup es2 k = dlookup es1 k := by
    unfold storeOriginalOpt at hso
    by_cases hb : params.store_original
    · rw [if_pos hb] at hso; exact storeOriginalStep_frame _ _ _ hso
    · rw [if_neg hb] at hso; cases hso; exact ⟨es1, rfl, fun _ _ => rfl⟩
  obtain ⟨es2, rfl, hfr2⟩ := h2
  cases hsd : pySetdefaultDict (.vdict es2) "meta" with
  | error e => rw [hsd, bindE_error] at h; cases h
  | ok new3 =>
  rw [hsd, bindE_ok] at h
  obtain ⟨es3, rfl, hfr3⟩ := pySetdefaultDict_frame es2 "meta" _ hsd
  cases hu2 : ensureUid (.vdict es3) with
  | error e => rw [hu2, bindE_error] at h; cases h
  | ok pr =>
  rw [hu2, bindE_ok] at h
  obtain ⟨es4, hpr2, hfr4⟩ := ensureUid_frame es3 pr hu2
  cases hsrc : pyGet bgMetaV "source" .vnone with
  | error e => rw [hsrc, bindE_error] at h; cases h
  | ok sourceV =>
  rw [hsrc, bindE_ok] at h
  rw [hpr2] at h
  set bgu := (if pyTruthy uidV then uidV
    else Val.vstr (computeIdentifier bg
      { id_paths := ["meta.file", "meta.shot", "meta.scope"] })) with hbgu
  set bgInfo := Val.vdict [("uid", bgu), ("source", sourceV),
    ("channels_skipped", .vlist (folded.2.map .vstr))] with hbgInfo
  cases hset : setMetaKey (.vdict es4) "__background__" bgInfo with
  | error e => rw [hset, bindE_error] at h; cases h
  | ok new5 =>
  rw [hset, bindE_ok] at h
  obtain ⟨ms4, hms4, hnew5⟩ := setMetaKey_ok_shape es4 _ _ _ hset
  subst hnew5
  have hmeta5 : dlookup (dset es4 "meta"
      (.vdict (dset ms4 "__background__" bgInfo))) "meta" =
      some (.vdict (dset ms4 "__background__" bgInfo)) := dlookup_dset _ _ _
  have h6 : ∃ es6 ms6, out = .vdict es6 ∧
      dlookup es6 "meta" = some (.vdict ms6) ∧
      (∀ k, k ≠ "meta" → dlookup es6 k =
        dlookup (dset es4 "meta" (.vdict (dset ms4 "__background__" bgInfo))) k) ∧
      (∀ k, k ≠ "__history__" → dlookup ms6 k =
        dlookup (dset ms4 "__background__" bgInfo) k) := by
    unfold recordHistoryOpt at h
    by_cases hrh : params.record_history
    · rw [if_pos hrh] at h
      obtain ⟨es6, hout, hfr6⟩ := appendHistory_frame _ _ _ h
      obtain ⟨es6', ms6, hout', hm6, hfr7⟩ :=
        appendHistory_meta_frame _ _ _ _ hmeta5 h
      have hee : es6 = es6' := by
        rw [hout] at hout'
        cases hout'
        rfl
      subst hee
      exact ⟨es6, ms6, hout, hm6, hfr6, hfr7⟩
    · rw [if_neg hrh] at h
      cases h
      exact ⟨_, _, rfl, hmeta5, fun _ _ => rfl, fun _ _ => rfl⟩
  obtain ⟨es6, ms6, rfl, hm6, hfr6, hfr7⟩ := h6
  have houter : ∀ k, k ≠ "meta" → dlookup es6 k = dlookup es1 k := by
    intro k hk
    rw [hfr6 k hk, dlookup_dset_ne _ _ _ _ hk, hfr4 k hk, hfr3 k hk, hfr2 k hk]
  constructor
  · intro hothead
    show (do
      let ts ← parsePath params.output_field
      resolveTokens (.vdict es6) ts) = .ok (.vdict folded.1)
    rw [hot, bindE_ok]
    rw [resolveTokens_congr_head es1 es6 ot ots (houter ot hothead)]
    exact hres1
  · refine ⟨[("uid", bgu), ("source", sourceV),
      ("channels_skipped", .vlist (folded.2.map .vstr))], ?_, ?_⟩
    · show (do
        let ts ← parsePath "meta.__background__"
        resolveTokens (.vdict es6) ts) = _
      rw [show parsePath "meta.__background__" =
          .ok ["meta", "__background__"] from by with_unfolding_all rfl, bindE_ok]
      simp only [resolveTokens, hm6]
      rw [hfr7 "__background__" (by decide), dlookup_dset]
    · with_unfolding_all rfl

theorem scaledSubtract_getD (e b : List ℚ) (es bs : ℚ) :
    ∀ i, i < min e.length b.length →
      (scaledSubtract e b es bs).getD i 0 = es * e.getD i 0 - bs * b.getD i 0 := by
  induction e generalizing b with
  | nil => intro i hi; simp at hi
  | cons x xs ih =>
      intro i hi
      cases b with
      | nil => simp at hi
      | cons y ys =>
          cases i with
          | zero => simp [scaledSubtract]
          | succ i' =>
              simp only [scaledSubtract, List.zipWith, List.getD_cons_succ]
              have := ih ys i' (by simp at hi; omega)
              simpa [scaledSubtract] using this

/-! ### C3 and C7: background-subtraction channel semantics -/

/-- C3: in `background_subtract_one`, every matched channel is emitted (at
`prefix ++ key` under `output_field`) as `exp_scale * expValues -
bg_scale * interpolatedOrRawBgValues`, elementwise. -/
theorem C3_matched_channel_subtraction
    (exp bg : Val) (params : BackgroundSubtractParams) (now : String) (out : Val)
    (tev tbv : Val) (t_exp t_bg : List ℚ) (chexp chbg : List (String × Val))
    (ot : String) (ots : List String) (j : Nat) (k mk : String) (ev bgv : Val)
    (e b0 b : List ℚ)
    (h : bgSubtractOne exp bg params now = .ok out)
    (hte : resolvePath exp params.time_path = .ok tev)
    (hteq : asarrayQ tev = .ok t_exp)
    (hce : resolvePath exp params.channels_path = .ok (.vdict chexp))
    (htb : resolvePath bg params.time_path = .ok tbv)
    (htbq : asarrayQ tbv = .ok t_bg)
    (hcb : resolvePath bg params.channels_path = .ok (.vdict chbg))
    (hot : parsePath params.output_field = .ok (ot :: ots))
    (hothead : ot ≠ "meta")
    (hnd : (chexp.map Prod.fst).Nodup)
    (hj : chexp.get? j = some (k, ev))
    (hmk : bgMatchKey params chbg j k = .ok (some mk))
    (hmem : dmem chbg mk = true)
    (hbgv : dlookup chbg mk = some bgv)
    (hb0 : asarrayQ bgv = .ok b0)
    (hb : (if params.time_align = "interp_bg_to_exp" then interpF t_exp t_bg b0
      else .ok b0) = .ok b)
    (he : asarrayQ ev = .ok e) :
    ∃ rc, resolvePath out params.output_field = .ok (.vdict rc) ∧
      dlookup rc (params.result_channel_prefix0 ++ k) =
        some (.varr (scaledSubtract e b params.exp_scale params.bg_scale)) ∧
      ∀ i, i < min e.length b.length →
        (scaledSubtract e b params.exp_scale params.bg_scale).getD i 0 =
          params.exp_scale * e.getD i 0 - params.bg_scale * b.getD i 0 := by
  obtain ⟨folded, hfold, hout, _⟩ :=
    bgSubtractOne_inversion exp bg params now out tev tbv t_exp t_bg chexp chbg
      ot ots h hte hteq hce htb htbq hcb hot
  have hfold2 : (List.enumFrom 0 chexp).foldlM (fun acc ikv =>
      bgChannelStep params t_exp t_bg chbg acc ikv.1 ikv.2.1 ikv.2.2)
      (([], []) : List (String × Val) × List String) = .ok folded := hfold
  have hentry := bgFold_entry params t_exp t_bg chbg chexp 0 ([], []) folded
    hfold2 hnd j k ev hj
  refine ⟨folded.1, hout hothead, ?_, scaledSubtract_getD e b _ _⟩
  exact hentry.2 mk bgv b0 b e (by rwa [Nat.zero_add]) hmem hbgv hb0 hb he

/-- Experiment payload of the concrete C3 scenario. -/
def exP3 : Val := .vdict [("data", .vdict [("time", .varr [0, 1, 2]),
  ("channels", .vdict [("A", .varr [1, 2, 3])])]), ("meta", .vdict [])]

/-- Background payload of the concrete C3 scenario. -/
def bgP3 : Val := .vdict [("data", .vdict [("time", .varr [0, 1, 2]),
  ("channels", .vdict [("A", .varr [1/2, 1/2, 1/2])])]), ("meta", .vdict [])]

/-- Witness for C3: experiment `[1,2,3]` minus background `[0.5,0.5,0.5]`
with equal timebases and default scales gives `[0.5,1.5,2.5]`. -/
theorem C3_witness :
    (∃ rc, resolvePath ((bgSubtractOne exP3 bgP3 {} "ts").toOption.getD .vnone)
        (BackgroundSubtractParams.output_field {}) = .ok (.vdict rc) ∧
      dlookup rc (BackgroundSubtractParams.result_channel_prefix0 {} ++ "A") =
        some (.varr (scaledSubtract [1, 2, 3] [1/2, 1/2, 1/2]
          (BackgroundSubtractParams.exp_scale {})
          (BackgroundSubtractParams.bg_scale {}))) ∧
      ∀ i, i < min (([1, 2, 3] : List ℚ).length) (([1/2, 1/2, 1/2] : List ℚ).length) →
        (scaledSubtract [1, 2, 3] [1/2, 1/2, 1/2]
          (BackgroundSubtractParams.exp_scale {})
          (BackgroundSubtractParams.bg_scale {})).getD i 0 =
          (BackgroundSubtractParams.exp_scale {}) * ([1, 2, 3] : List ℚ).getD i 0 -
          (BackgroundSubtractParams.bg_scale {}) * ([1/2, 1/2, 1/2] : List ℚ).getD i 0) ∧
    scaledSubtract [1, 2, 3] [1/2, 1/2, 1/2] 1 1 = [1/2, 3/2, 5/2] := by
  constructor
  · exact C3_matched_channel_subtraction exP3 bgP3 {} "ts" _
      (.varr [0, 1, 2]) (.varr [0, 1, 2]) [0, 1, 2] [0, 1, 2]
      [("A", .varr [1, 2, 3])] [("A", .varr [1/2, 1/2, 1/2])]
      "data" ["channels"] 0 "A" "A" (.varr [1, 2, 3]) (.varr [1/2, 1/2, 1/2])
      [1, 2, 3] [1/2, 1/2, 1/2] [1/2, 1/2, 1/2]
      (by with_unfolding_all rfl) (by with_unfolding_all rfl)
      (by with_unfolding_all rfl) (by with_unfolding_all rfl)
      (by with_unfolding_all rfl) (by with_unfolding_all rfl)
      (by with_unfolding_all rfl) (by with_unfolding_all rfl)
      (by decide) (by decide) (by with_unfolding_all rfl)
      (by with_unfolding_all rfl) (by with_unfolding_all rfl)
      (by with_unfolding_all rfl) (by with_unfolding_all rfl)
      (by with_unfolding_all rfl) (by with_unfolding_all rfl)
  · with_unfolding_all rfl

/-- C7: with `missing_channel_policy="skip"`, every experiment channel
without a matching background channel appears in the output numerically
identical to its input values, and its key is recorded in
`meta.__background__.channels_skipped`. -/
theorem C7_skip_policy_unmatched_verbatim
    (exp bg : Val) (params : BackgroundSubtractParams) (now : String) (out : Val)
    (tev tbv : Val) (t_exp t_bg : List ℚ) (chexp chbg : List (String × Val))
    (ot : String) (ots : List String) (j : Nat) (k : String) (ev : Val)
    (_hskip : params.missing_channel_policy = "skip")
    (h : bgSubtractOne exp bg params now = .ok out)
    (hte : resolvePath exp params.time_path = .ok tev)
    (hteq : asarrayQ tev = .ok t_exp)
    (hce : resolvePath exp params.channels_path = .ok (.vdict chexp))
    (htb : resolvePath bg params.time_path = .ok tbv)
    (htbq : asarrayQ tbv = .ok t_bg)
    (hcb : resolvePath bg params.channels_path = .ok (.vdict chbg))
    (hot : parsePath params.output_field = .ok (ot :: ots))
    (hothead : ot ≠ "meta")
    (hnd : (chexp.map Prod.fst).Nodup)
    (hj : chexp.get? j = some (k, ev))
    (hmiss : bgMatchKey params chbg j k = .ok none ∨
      (∃ mk, bgMatchKey params chbg j k = .ok (some mk) ∧ dmem chbg mk = false)) :
    ∃ rc, resolvePath out params.output_field = .ok (.vdict rc) ∧
      dlookup rc (params.result_channel_prefix0 ++ k) = some ev ∧
      ∃ info skipped, resolvePath out "meta.__background__" = .ok (.vdict info) ∧
        dlookup info "channels_skipped" = some (.vlist skipped) ∧
        Val.vstr k ∈ skipped := by
  obtain ⟨folded, hfold, hout, info, hinfo, hsk⟩ :=
    bgSubtractOne_inversion exp bg params now out tev tbv t_exp t_bg chexp chbg
      ot ots h hte hteq hce htb htbq hcb hot
  have hfold2 : (List.enumFrom 0 chexp).foldlM (fun acc ikv =>
      bgChannelStep params t_exp t_bg chbg acc ikv.1 ikv.2.1 ikv.2.2)
      (([], []) : List (String × Val) × List String) = .ok folded := hfold
  have hentry := bgFold_entry params t_exp t_bg chbg chexp 0 ([], []) folded
    hfold2 hnd j k ev hj
  obtain ⟨hlook, hmem⟩ := hentry.1 (by rwa [Nat.zero_add])
  exact ⟨folded.1, hout hothead, hlook, info, folded.2.map .vstr, hinfo, hsk,
    List.mem_map_of_mem _ hmem⟩

/-- Background payload of the concrete C7 scenario (channel `B` only, so
experiment channel `A` is unmatched). -/
def bgP7 : Val := .vdict [("data", .vdict [("time", .varr [0, 1, 2]),
  ("channels", .vdict [("B", .varr [1, 1, 1])])]), ("meta", .vdict [])]

/-- Witness for C7: the unmatched channel `A` passes through verbatim and
is recorded as skipped. -/
theorem C7_witness :
    ∃ rc, resolvePath ((bgSubtractOne exP3 bgP7 {} "ts").toOption.getD .vnone)
        (BackgroundSubtractParams.output_field {}) = .ok (.vdict rc) ∧
      dlookup rc (BackgroundSubtractParams.result_channel_prefix0 {} ++ "A") =
        some (.varr [1, 2, 3]) ∧
      ∃ info skipped,
        resolvePath ((bgSubtractOne exP3 bgP7 {} "ts").toOption.getD .vnone)
          "meta.__background__" = .ok (.vdict info) ∧
        dlookup info "channels_skipped" = some (.vlist skipped) ∧
        Val.vstr "A" ∈ skipped :=
  C7_skip_policy_unmatched_verbatim exP3 bgP7 {} "ts" _
    (.varr [0, 1, 2]) (.varr [0, 1, 2]) [0, 1, 2] [0, 1, 2]
    [("A", .varr [1, 2, 3])] [("B", .varr [1, 1, 1])]
    "data" ["channels"] 0 "A" (.varr [1, 2, 3])
    (by with_unfolding_all rfl) (by with_unfolding_all rfl)
    (by with_unfolding_all rfl) (by with_unfolding_all rfl)
    (by with_unfolding_all rfl) (by with_unfolding_all rfl)
    (by with_unfolding_all rfl) (by with_unfolding_all rfl)
    (by with_unfolding_all rfl) (by decide) (by decide)
    (by with_unfolding_all rfl)
    (Or.inr ⟨"A", by with_unfolding_all rfl, by with_unfolding_all rfl⟩)

/-! ### C6: interpolation semantics -/

theorem getD_map_lt (f : ℚ → ℚ) :
    ∀ (xs : List ℚ) (j : Nat), j < xs.length →
      (xs.map f).getD j 0 = f (xs.getD j 0)
  | [], j, h => by simp at h
  | x :: xs, 0, _ => by simp
  | x :: xs, j + 1, h => by
      simp only [List.map, List.getD_cons_succ]
      exact getD_map_lt f xs j (by simpa using h)

theorem find?_range'_first (p : Nat → Bool) :
    ∀ (n s i : Nat), s ≤ i → i < s + n → p i = true →
      (∀ j, s ≤ j → j < i → p j = false) →
      (List.range' s n).find? p = some i := by
  intro n
  induction n with
  | zero => intro s i h1 h2; omega
  | succ n ih =>
      intro s i h1 h2 hp hmin
      rw [List.range'_succ]
      by_cases hsi : s = i
      · subst hsi
        rw [List.find?_cons_of_pos _ hp]
      · have hps : p s = false := hmin s (le_refl _) (by omega)
        rw [List.find?_cons_of_neg _ (by simp [hps])]
        exact ih (s + 1) i (by omega) (by omega) hp
          (fun j hj1 hj2 => hmin j (by omega) hj2)

theorem getD_mem' : ∀ (l : List ℚ) (n : Nat), n < l.length → l.getD n 0 ∈ l
  | [], n, h => by simp at h
  | x :: xs, 0, _ => by simp
  | x :: xs, n + 1, h => by
      simp only [List.getD_cons_succ]
      exact List.mem_cons_of_mem _ (getD_mem' xs n (by simpa using h))

theorem getLastD_eq_getD :
    ∀ (l : List ℚ), l ≠ [] → l.getLastD 0 = l.getD (l.length - 1) 0
  | [], h => absurd rfl h
  | [x], _ => by simp
  | x :: y :: xs, _ => by
      have := getLastD_eq_getD (y :: xs) (by simp)
      simp only [List.getLastD_cons] at this ⊢
      rw [this]
      simp

theorem pairwise_lt_getD :
    ∀ (xp : List ℚ), xp.Pairwise (· < ·) →
      ∀ a b, a < b → b < xp.length → xp.getD a 0 < xp.getD b 0
  | [], _, a, b, _, hb => by simp at hb
  | x :: xs, h, 0, b + 1, _, hb => by
      simp only [List.getD_cons_zero, List.getD_cons_succ]
      have hx := (List.pairwise_cons.mp h).1
      exact hx _ (getD_mem' xs b (by simpa using hb))
  | x :: xs, h, a + 1, b + 1, hab, hb => by
      simp only [List.getD_cons_succ]
      exact pairwise_lt_getD xs (List.pairwise_cons.mp h).2 a b (by omega)
        (by simpa using hb)

theorem pairwise_le_getD (xp : List ℚ) (h : xp.Pairwise (· < ·))
    (a b : Nat) (hab : a ≤ b) (hb : b < xp.length) :
    xp.getD a 0 ≤ xp.getD b 0 := by
  rcases Nat.lt_or_ge a b with hlt | hge
  · exact le_of_lt (pairwise_lt_getD xp h a b hlt hb)
  · have : a = b := by omega
    subst this
    exact le_refl _

/-- Experiment payload of the concrete C6 scenario. -/
def exP6 : Val := .vdict [("data", .vdict [("time", .varr [0, 1, 2]),
  ("channels", .vdict [("A", .varr [10, 11, 12])])]), ("meta", .vdict [])]

/-- Background payload of the concrete C6 scenario. -/
def bgP6 : Val := .vdict [("data", .vdict [("time", .varr [0, 2, 4]),
  ("channels", .vdict [("A", .varr [0, 2, 4])])]), ("meta", .vdict [])]

/-- Parameters selecting `time_align="interp_bg_to_exp"`. -/
def bgInterpParams : BackgroundSubtractParams := { time_align := "interp_bg_to_exp" }

/-- C6: with `time_align="interp_bg_to_exp"`, background values are mapped
onto the experiment grid with out-of-range samples clamped to the nearest
boundary value and linear interpolation on the bracketing interval
elsewhere; in particular experiment time `[0,1,2]`, background time
`[0,2,4]`, values `[0,2,4]` interpolate to `[0,1,2]`, and subtracting from
channel `[10,11,12]` gives `[10,10,10]`. -/
theorem C6_interp_clamps_and_linear :
    (∀ (xs xp fp out : List ℚ) (j : Nat), interpF xs xp fp = .ok out →
      2 ≤ xp.length → j < xs.length → xs.getD j 0 ≤ xp.headD 0 →
      out.getD j 0 = fp.headD 0) ∧
    (∀ (xs xp fp out : List ℚ) (j : Nat), interpF xs xp fp = .ok out →
      2 ≤ xp.length → j < xs.length → ¬(xs.getD j 0 ≤ xp.headD 0) →
      xp.getLastD 0 ≤ xs.getD j 0 →
      out.getD j 0 = fp.getLastD 0) ∧
    (∀ (xp fp : List ℚ) (xv : ℚ) (i : Nat), xp.Pairwise (· < ·) →
      2 ≤ xp.length → 1 ≤ i → i < xp.length →
      xp.getD (i - 1) 0 < xv → xv ≤ xp.getD i 0 →
      xv < xp.getD (xp.length - 1) 0 →
      interpOne xp fp xv =
        fp.getD (i - 1) 0 + (xv - xp.getD (i - 1) 0) /
          (xp.getD i 0 - xp.getD (i - 1) 0) *
          (fp.getD i 0 - fp.getD (i - 1) 0)) ∧
    interpF [0, 1, 2] [0, 2, 4] [0, 2, 4] = .ok [0, 1, 2] ∧
    (bgSubtractOne exP6 bgP6 bgInterpParams "ts").bind
      (fun r => resolvePath r "data.channels.A") = .ok (.varr [10, 10, 10]) := by
  refine ⟨?_, ?_, ?_, by with_unfolding_all rfl, by with_unfolding_all rfl⟩
  · intro xs xp fp out j hok hlen hj hle
    unfold interpF at hok
    by_cases hl : xp.length ≠ fp.length
    · rw [if_pos hl] at hok; cases hok
    · rw [if_neg hl, if_neg (by omega)] at hok
      cases hok
      rw [getD_map_lt _ xs j hj]
      unfold interpOne
      rw [if_pos hle]
  · intro xs xp fp out j hok hlen hj hgt hge
    unfold interpF at hok
    by_cases hl : xp.length ≠ fp.length
    · rw [if_pos hl] at hok; cases hok
    · rw [if_neg hl, if_neg (by omega)] at hok
      cases hok
      rw [getD_map_lt _ xs j hj]
      unfold interpOne
      rw [if_neg hgt, if_pos hge]
  · intro xp fp xv i hs hlen hi1 hi hlow hhigh hlast
    unfold interpOne
    have hhead : ¬(xv ≤ xp.headD 0) := by
      have h0 : xp.getD 0 0 ≤ xp.getD (i - 1) 0 :=
        pairwise_le_getD xp hs 0 (i - 1) (by omega) (by omega)
      have : xp.headD 0 = xp.getD 0 0 := by
        cases xp with
        | nil => simp at hlen
        | cons a l => simp
      rw [this]
      linarith
    have hlast2 : xv < xp.getLastD 0 := by
      rw [getLastD_eq_getD xp (by intro hc; rw [hc] at hlen; simp at hlen)]
      exact hlast
    rw [if_neg hhead, if_neg (not_le.mpr hlast2)]
    have hfind : (List.range' 1 (xp.length - 1)).find?
        (fun idx => xp.getD idx 0 ≥ xv) = some i := by
      apply find?_range'_first _ _ _ _ hi1 (by omega) (by simpa using hhigh)
      intro j hj1 hj2
      have : xp.getD j 0 ≤ xp.getD (i - 1) 0 :=
        pairwise_le_getD xp hs j (i - 1) (by omega) (by omega)
      simp only [ge_iff_le, decide_eq_false_iff_not, not_le]
      linarith
    rw [hfind]
    have hx01 : xp.getD (i - 1) 0 < xp.getD i 0 :=
      pairwise_lt_getD xp hs (i - 1) i (by omega) hi
    dsimp only
    rw [if_neg hx01.ne']

/-- Witness for C6's clamp and linear conjuncts at concrete inputs. -/
theorem C6_witness :
    ([(-1 : ℚ), 5] : List ℚ).getD 0 0 ≤ ([0, 2, 4] : List ℚ).headD 0 ∧
    (interpF [-1, 5] [0, 2, 4] [7, 8, 9]).toOption.getD [] = [7, 9] ∧
    ((interpF [-1, 5] [0, 2, 4] [7, 8, 9]).toOption.getD []).getD 0 0 =
      ([7, 8, 9] : List ℚ).headD 0 ∧
    ((interpF [-1, 5] [0, 2, 4] [7, 8, 9]).toOption.getD []).getD 1 0 =
      ([7, 8, 9] : List ℚ).getLastD 0 ∧
    interpOne [0, 2, 4] [7, 8, 9] 1 =
      ([7, 8, 9] : List ℚ).getD 0 0 + ((1 : ℚ) - ([0, 2, 4] : List ℚ).getD 0 0) /
        (([0, 2, 4] : List ℚ).getD 1 0 - ([0, 2, 4] : List ℚ).getD 0 0) *
        (([7, 8, 9] : List ℚ).getD 1 0 - ([7, 8, 9] : List ℚ).getD 0 0) := by
  refine ⟨by decide, by with_unfolding_all rfl, ?_, ?_, ?_⟩
  · exact C6_interp_clamps_and_linear.1 [-1, 5] [0, 2, 4] [7, 8, 9] [7, 9] 0
      (by with_unfolding_all rfl) (by decide) (by decide) (by decide)
  · exact C6_interp_clamps_and_linear.2.1 [-1, 5] [0, 2, 4] [7, 8, 9] [7, 9] 1
      (by with_unfolding_all rfl) (by decide) (by decide) (by decide) (by decide)
  · exact C6_interp_clamps_and_linear.2.2.1 [0, 2, 4] [7, 8, 9] 1 1
      (by decide) (by decide) (by decide) (by decide) (by decide) (by decide)
      (by decide)

/-! ### C9: the `stack` / `concat` merge modes -/

theorem applyCollision_empty (spec : MergeSpec) (key uid : String) :
    (∃ k1, applyCollision spec key uid [] = .ok k1) ∨
    (∃ m, applyCollision spec key uid [] = .error (specErr m)) := by
  unfold applyCollision
  by_cases h1 : spec.collision_policy = "error"
  · rw [if_pos h1, if_neg (by simp [dmem])]
    exact Or.inl ⟨key, rfl⟩
  · rw [if_neg h1]
    by_cases h2 : spec.collision_policy = "attach_id"
    · rw [if_pos h2, if_neg (by simp [dmem])]
      exact Or.inl ⟨_, rfl⟩
    · rw [if_neg h2]
      by_cases h3 : spec.collision_policy = "overwrite"
      · rw [if_pos h3]
        exact Or.inl ⟨key, rfl⟩
      · rw [if_neg h3]
        by_cases h4 : spec.collision_policy = "suffix_counter"
        · rw [if_pos h4]
          exact Or.inl ⟨_, rfl⟩
        · rw [if_neg h4]
          exact Or.inr ⟨_, rfl⟩

/-- With a non-`dict_union` merge mode, processing any key pair from an
empty accumulated mapping raises a `SpecError`. -/
theorem mergeKeyStep_nonunion_error (spec : MergeSpec) (uid : String)
    (hmode : spec.merge_mode ≠ "dict_union") (prov : List Val)
    (kv : String × Val) :
    ∃ m, mergeKeyStep spec uid ([], prov) kv = .error (specErr m) := by
  unfold mergeKeyStep
  dsimp only
  rcases applyCollision_empty spec kv.1 uid with ⟨k1, hk⟩ | ⟨m, hk⟩
  · rw [hk, bindE_ok]
    rw [if_neg (by simp [dmem])]
    rw [if_neg (by simpa using hmode)]
    exact ⟨_, rfl⟩
  · rw [hk, bindE_error]
    exact ⟨m, rfl⟩

/-- With a non-`dict_union` merge mode, the key fold succeeds only on an
empty source mapping (leaving the accumulator unchanged). -/
theorem mergeKeyFold_nonunion (spec : MergeSpec) (uid : String)
    (hmode : spec.merge_mode ≠ "dict_union") (sd : List (String × Val))
    (prov : List Val) (res : List (String × Val) × List Val)
    (h : sd.foldlM (mergeKeyStep spec uid) ([], prov) = .ok res) :
    sd = [] ∧ res = ([], prov) := by
  cases sd with
  | nil =>
      simp only [List.foldlM] at h
      cases h
      exact ⟨rfl, rfl⟩
  | cons kv rest =>
      simp only [List.foldlM] at h
      obtain ⟨m, hm⟩ := mergeKeyStep_nonunion_error spec uid hmode prov kv
      rw [hm, bindE_error] at h
      cases h

/-- With a non-`dict_union` merge mode, a successful per-payload step from
an empty accumulated mapping forces the payload's target mapping to be
empty. -/
theorem mergePayloadStep_nonunion (spec : MergeSpec) (joiner : String)
    (tr : Option Val) (hmode : spec.merge_mode ≠ "dict_union") (p : Val)
    (prov : List Val) (res : List (String × Val) × List Val)
    (h : mergePayloadStep spec joiner tr ([], prov) p = .ok res) :
    (∀ es, resolvePath p spec.target_path = .ok (.vdict es) → es = []) ∧
    res = ([], prov) := by
  unfold mergePayloadStep at h
  cases hrs : resolvePath p spec.target_path with
  | error e => rw [hrs, bindE_error] at h; cases h
  | ok source =>
  rw [hrs, bindE_ok] at h
  cases hd : ensureDictT source spec.target_path with
  | error e => rw [hd, bindE_error] at h; cases h
  | ok sd =>
  rw [hd, bindE_ok] at h
  cases hck : mergeTimeCheck spec tr p with
  | error e => rw [hck, bindE_error] at h; cases h
  | ok u =>
  rw [hck, bindE_ok] at h
  obtain ⟨hsd, hres⟩ := mergeKeyFold_nonunion spec _ hmode sd prov res h
  subst hsd
  refine ⟨?_, hres⟩
  intro es hes
  have hse : source = Val.vdict es := (Except.ok.injEq _ _).mp hes
  subst hse
  unfold ensureDictT at hd
  exact (Except.ok.injEq _ _).mp hd

theorem mergePayloadFold_nonunion (spec : MergeSpec) (joiner : String)
    (tr : Option Val) (hmode : spec.merge_mode ≠ "dict_union") :
    ∀ (pls : List Val) (prov : List Val)
      (res : List (String × Val) × List Val),
    pls.foldlM (mergePayloadStep spec joiner tr) ([], prov) = .ok res →
    ∀ p ∈ pls, ∀ es, resolvePath p spec.target_path = .ok (.vdict es) →
      es = [] := by
  intro pls
  induction pls with
  | nil => intro prov res h p hp; cases hp
  | cons q rest ih =>
      intro prov res h p hp es hes
      simp only [List.foldlM] at h
      cases hstep : mergePayloadStep spec joiner tr ([], prov) q with
      | error e => rw [hstep, bindE_error] at h; cases h
      | ok acc1 =>
          rw [hstep, bindE_ok] at h
          obtain ⟨hq, hacc⟩ :=
            mergePayloadStep_nonunion spec joiner tr hmode q prov acc1 hstep
          rcases List.mem_cons.mp hp with rfl | hp2
          · exact hq es hes
          · subst hacc
            exact ih prov res h p hp2 es hes

/-- C9 (amended): with `merge_mode` `stack` or `concat`, `merge_payloads`
raises `SpecError` as soon as it processes one `(key, value)` pair — in
particular whenever the first payload's target mapping is non-empty and
the upfront validations pass — but when every payload's target mapping is
empty no pair is processed and the merge succeeds without error. -/
theorem C9_amended_stack_concat_specerror (spec : MergeSpec)
    (hmode : spec.merge_mode = "stack" ∨ spec.merge_mode = "concat") :
    (∀ (payloads : List Val) (out : Val),
      mergePayloads payloads spec = .ok out →
      ∀ p ∈ payloads, ∀ es, resolvePath p spec.target_path = .ok (.vdict es) →
        es = []) ∧
    (∀ (p : Val) (rest : List Val) (kv : String × Val)
      (es1 : List (String × Val)) (tt smt : List String),
      parsePath spec.target_path = .ok tt →
      parsePath spec.source_map_path = .ok smt →
      resolvePath p spec.target_path = .ok (.vdict (kv :: es1)) →
      (spec.require_same_timebase = true →
        ∃ tv, resolvePath p spec.time_path = .ok tv) →
      ∃ m, mergePayloads (p :: rest) spec = .error (specErr m)) := by
  have hmode2 : spec.merge_mode ≠ "dict_union" := by
    rcases hmode with h | h <;> rw [h] <;> decide
  constructor
  · intro payloads out h p hp es hes
    unfold mergePayloads at h
    cases payloads with
    | nil => cases hp
    | cons q rest =>
    rw [if_neg (by simp)] at h
    dsimp only at h
    cases htt : parsePath spec.target_path with
    | error e => rw [htt, bindE_error] at h; cases h
    | ok tt =>
    rw [htt, bindE_ok] at h
    cases hsmt : parsePath spec.source_map_path with
    | error e => rw [hsmt, bindE_error] at h; cases h
    | ok smt =>
    rw [hsmt, bindE_ok] at h
    cases hbase : resolvePath ((q :: rest).headD .vnone) spec.target_path with
    | error e => rw [hbase, bindE_error] at h; cases h
    | ok bt =>
    rw [hbase, bindE_ok] at h
    cases hbd : ensureDictT bt spec.target_path with
    | error e => rw [hbd, bindE_error] at h; cases h
    | ok bd =>
    rw [hbd, bindE_ok] at h
    cases htr : mergeTimeRef spec ((q :: rest).headD .vnone) with
    | error e => rw [htr, bindE_error] at h; cases h
    | ok tr =>
    rw [htr, bindE_ok] at h
    cases hfold : (q :: rest).foldlM (mergePayloadStep spec
        (match spec.id_spec with | some i => i.joiner | none => "__") tr)
        ([], []) with
    | error e => rw [hfold, bindE_error] at h; cases h
    | ok res =>
        exact mergePayloadFold_nonunion spec _ tr hmode2 (q :: rest) [] res
          hfold p hp es hes
  · intro p rest kv es1 tt smt htt hsmt hres htv
    unfold mergePayloads
    rw [if_neg (by simp)]
    rw [htt, bindE_ok, hsmt, bindE_ok]
    have hhead : (p :: rest).headD Val.vnone = p := rfl
    rw [hhead]
    dsimp only
    rw [hres, bindE_ok]
    rw [show ensureDictT (.vdict (kv :: es1)) spec.target_path =
      .ok (kv :: es1) from rfl, bindE_ok]
    cases htr : mergeTimeRef spec p with
    | error e =>
        exfalso
        unfold mergeTimeRef at htr
        by_cases hrt : spec.require_same_timebase
        · rw [if_pos hrt] at htr
          obtain ⟨tv, htv2⟩ := htv hrt
          rw [htv2] at htr
          cases htr
        · rw [if_neg hrt] at htr
          cases htr
    | ok tr =>
    rw [bindE_ok]
    have htrv : (∃ trv, tr = some trv ∧
        (spec.require_same_timebase = true →
          resolvePath p spec.time_path = .ok trv)) ∨
        (tr = none ∧ spec.require_same_timebase = false) := by
      unfold mergeTimeRef at htr
      by_cases hrt : spec.require_same_timebase
      · rw [if_pos hrt] at htr
        obtain ⟨tv, htv2⟩ := htv hrt
        rw [htv2] at htr
        cases htr
        exact Or.inl ⟨tv, rfl, fun _ => htv2⟩
      · rw [if_neg hrt] at htr
        cases htr
        exact Or.inr ⟨rfl, by simpa using hrt⟩
    have hcheck : mergeTimeCheck spec tr p = .ok () := by
      unfold mergeTimeCheck
      by_cases hrt : spec.require_same_timebase
      · rw [if_pos hrt]
        rcases htrv with ⟨trv, htr1, htr2⟩ | ⟨_, hfalse⟩
        · rw [htr2 hrt, bindE_ok, htr1]
          rw [show (some trv).getD Val.vnone = trv from rfl]
          rw [show compareTimebases trv trv = true from Val.beq_refl trv]
          rfl
        · rw [hrt] at hfalse; cases hfalse
      · rw [if_neg hrt]
    simp only [List.foldlM]
    unfold mergePayloadStep
    rw [hres, bindE_ok]
    rw [show ensureDictT (.vdict (kv :: es1)) spec.target_path =
      .ok (kv :: es1) from rfl, bindE_ok]
    rw [hcheck, bindE_ok]
    simp only [List.foldlM]
    obtain ⟨m, hm⟩ := mergeKeyStep_nonunion_error spec
      (computeIdentifier p (spec.id_spec.getD
        { id_paths := defaultIdPaths,
          joiner := match spec.id_spec with | some i => i.joiner | none => "__" }))
      hmode2 [] kv
    rw [hm, bindE_error, bindE_error, bindE_error]
    exact ⟨m, rfl⟩

/-- A payload whose channel mapping is empty. -/
def mP9 : Val := .vdict [("data", .vdict [("time", .varr [1, 2]),
  ("channels", .vdict [])]), ("meta", .vdict [])]

/-- A merge specification selecting the reserved `stack` mode. -/
def mSpec9 : MergeSpec := { target_path := "data.channels", merge_mode := "stack" }

/-- Counterexample to C9 as stated: a non-empty payload list for which
`merge_payloads` with `merge_mode="stack"` succeeds (no `SpecError` is
raised, because the `SpecError` is only reached when a key pair is
processed). -/
theorem C9_counterexample : (mergePayloads [mP9] mSpec9).isOk = true := by
  with_unfolding_all rfl

/-- Witness for the amended C9 at a concrete non-empty target. -/
theorem C9_witness :
    (∀ p ∈ [mP9], ∀ es, resolvePath p mSpec9.target_path = .ok (.vdict es) →
      es = []) ∧
    ∃ m, mergePayloads [exP3] mSpec9 = .error (specErr m) := by
  constructor
  · exact (C9_amended_stack_concat_specerror mSpec9 (Or.inl rfl)).1 [mP9]
      ((mergePayloads [mP9] mSpec9).toOption.getD .vnone)
      (by with_unfolding_all rfl)
  · exact (C9_amended_stack_concat_specerror mSpec9 (Or.inl rfl)).2 exP3 []
      ("A", .varr [1, 2, 3]) [] ["data", "channels"] ["meta", "__sources__"]
      (by with_unfolding_all rfl) (by with_unfolding_all rfl)
      (by with_unfolding_all rfl)
      (fun _ => ⟨.varr [0, 1, 2], by with_unfolding_all rfl⟩)

/-! ### C10: split_payload children, identifiers and attached ids -/

theorem resolveTokens_cloneWithSet :
    ∀ (ts : List String) (root v r : Val),
    cloneWithSet root ts v = .ok r → resolveTokens r ts = .ok v := by
  intro ts
  induction ts with
  | nil =>
      intro root v r h
      simp only [cloneWithSet] at h
      cases h
      cases v <;> rfl
  | cons t ts ih =>
      intro root v r h
      cases root with
      | vdict es =>
          simp only [cloneWithSet] at h
          cases hl : dlookup es t with
          | some hit =>
              rw [hl] at h
              dsimp only at h
              cases hsub : cloneWithSet hit ts v with
              | error e => rw [hsub, bindE_error] at h; cases h
              | ok sub =>
                  rw [hsub, bindE_ok] at h
                  cases h
                  simp only [resolveTokens, dlookup_dset]
                  exact ih hit v sub hsub
          | none =>
              rw [hl] at h
              dsimp only at h
              cases ts with
              | nil =>
                  cases h
                  simp only [resolveTokens, dlookup_dset]
              | cons t2 ts2 =>
                  cases hsub : cloneWithSet (.vdict []) (t2 :: ts2) v with
                  | error e => rw [hsub, bindE_error] at h; cases h
                  | ok sub =>
                      rw [hsub, bindE_ok] at h
                      cases h
                      simp only [resolveTokens, dlookup_dset]
                      exact ih _ v sub hsub
      | vnone => simp [cloneWithSet] at h
      | vbool b => simp [cloneWithSet] at h
      | vnum q => simp [cloneWithSet] at h
      | vstr s2 => simp [cloneWithSet] at h
      | vscal x => simp [cloneWithSet] at h
      | varr xs => simp [cloneWithSet] at h
      | vlist xs => simp [cloneWithSet] at h

theorem alookup_aset_self (es : List (String × Nat)) (k : String) (n : Nat) :
    alookup (aset es k n) k = some n := by
  induction es with
  | nil => simp [aset, alookup, List.find?]
  | cons e rest ih =>
      by_cases h : e.1 = k
      · simp [aset, h, alookup, List.find?]
      · simpa [aset, h, alookup, List.find?] using ih

theorem alookup_aset_ne (es : List (String × Nat)) (k k' : String) (n : Nat)
    (h : k' ≠ k) : alookup (aset es k n) k' = alookup es k' := by
  induction es with
  | nil =>
      simp only [aset, alookup, List.find?]
      rw [decide_eq_false (Ne.symm h)]
  | cons e rest ih =>
      by_cases he : e.1 = k
      · simp only [aset, he, if_true]
        simp only [alookup, List.find?]
        rw [decide_eq_false (Ne.symm h),
          decide_eq_false (fun hc => (Ne.symm h) (he ▸ hc))]
      · simp only [aset, he, if_false]
        by_cases h2 : e.1 = k'
        · simp only [alookup, List.find?]
          rw [decide_eq_true h2]
        · simp only [alookup, List.find?] at ih ⊢
          rw [decide_eq_false h2]
          exact ih

theorem dset_eq_append (es : List (String × Val)) (k : String) (v : Val)
    (h : dmem es k = false) : dset es k v = es ++ [(k, v)] := by
  induction es with
  | nil => rfl
  | cons e rest ih =>
      simp only [dmem, List.any, Bool.or_eq_false_iff, decide_eq_false_iff_not] at h
      simp only [dset, if_neg h.1, List.cons_append, List.cons.injEq, true_and]
      exact ih (by simpa [dmem] using h.2)

theorem dmem_append_single (es : List (String × Val)) (k k' : String) (v : Val) :
    dmem (es ++ [(k, v)]) k' = (dmem es k' || decide (k = k')) := by
  simp [dmem, List.any_append]

theorem splitStep_ok (payload : Val) (spec : SplitSpec) (tt : List String)
    (buid joiner : String) (acc acc' : List (String × Val) × List (String × Nat))
    (kv : String × Val)
    (h : splitStep payload spec tt buid joiner acc kv = .ok acc') :
    ∃ ch mts, parsePath spec.attach_id_to_meta_path = .ok mts ∧
      resolveTokens ch mts = .ok (.vstr
        (if (alookup acc.2 (buid ++ joiner ++ kv.1)).getD 0 = 0
          then buid ++ joiner ++ kv.1
          else (buid ++ joiner ++ kv.1) ++ "_" ++
            toString ((alookup acc.2 (buid ++ joiner ++ kv.1)).getD 0))) ∧
      acc'.1 = dset acc.1
        (if (alookup acc.2 (buid ++ joiner ++ kv.1)).getD 0 = 0
          then buid ++ joiner ++ kv.1
          else (buid ++ joiner ++ kv.1) ++ "_" ++
            toString ((alookup acc.2 (buid ++ joiner ++ kv.1)).getD 0)) ch ∧
      acc'.2 = aset acc.2 (buid ++ joiner ++ kv.1)
        ((alookup acc.2 (buid ++ joiner ++ kv.1)).getD 0 + 1) := by
  unfold splitStep at h
  cases hc0 : ensureCopy payload spec.copy_policy with
  | error e => rw [hc0, bindE_error] at h; cases h
  | ok child0 =>
  rw [hc0, bindE_ok] at h
  dsimp only at h
  cases hc1 : cloneWithSet child0 tt
      (.vdict [(formatKeyPid spec.child_key_template kv.1 buid, kv.2)]) with
  | error e => rw [hc1, bindE_error] at h; cases h
  | ok child1 =>
  rw [hc1, bindE_ok] at h
  cases hmt : parsePath spec.attach_id_to_meta_path with
  | error e => rw [hmt, bindE_error] at h; cases h
  | ok mts =>
  rw [hmt, bindE_ok] at h
  cases hc2 : cloneWithSet child1 mts (.vstr
      (if (alookup acc.2 (buid ++ joiner ++ kv.1)).getD 0 = 0
        then buid ++ joiner ++ kv.1
        else (buid ++ joiner ++ kv.1) ++ "_" ++
          toString ((alookup acc.2 (buid ++ joiner ++ kv.1)).getD 0))) with
  | error e => rw [hc2, bindE_error] at h; cases h
  | ok child2 =>
  rw [hc2, bindE_ok] at h
  cases h
  exact ⟨child2, mts, rfl, resolveTokens_cloneWithSet mts child1 _ child2 hc2,
    rfl, rfl⟩

theorem splitFold_nodup (payload : Val) (spec : SplitSpec) (tt : List String)
    (buid joiner : String) (mts : List String)
    (hmt : parsePath spec.attach_id_to_meta_path = .ok mts) :
    ∀ (items outputs0 : List (String × Val)) (seen0 : List (String × Nat))
      (res : List (String × Val) × List (String × Nat)),
    (∀ kv ∈ items, alookup seen0 (buid ++ joiner ++ kv.1) = none) →
    ((items.map fun kv => buid ++ joiner ++ kv.1).Nodup) →
    (∀ kv ∈ items, dmem outputs0 (buid ++ joiner ++ kv.1) = false) →
    items.foldlM (splitStep payload spec tt buid joiner) (outputs0, seen0) =
      .ok res →
    res.1.map Prod.fst =
      outputs0.map Prod.fst ++ items.map (fun kv => buid ++ joiner ++ kv.1) ∧
    ∀ e ∈ res.1, e ∈ outputs0 ∨ resolveTokens e.2 mts = .ok (.vstr e.1) := by
  intro items
  induction items with
  | nil =>
      intro outputs0 seen0 res _ _ _ h
      cases h
      exact ⟨by simp, fun e he => Or.inl he⟩
  | cons kv rest ih =>
      intro outputs0 seen0 res hseen hnd houtk h
      simp only [List.foldlM] at h
      cases hstep : splitStep payload spec tt buid joiner (outputs0, seen0) kv with
      | error e => rw [hstep, bindE_error] at h; cases h
      | ok acc1 =>
      rw [hstep, bindE_ok] at h
      obtain ⟨ch, mts2, hmt2, hres, hout1, hseen1⟩ :=
        splitStep_ok payload spec tt buid joiner (outputs0, seen0) acc1 kv hstep
      have hmts2 : mts2 = mts := by rw [hmt] at hmt2; cases hmt2; rfl
      rw [hmts2] at hres
      dsimp only at hres hout1 hseen1
      have hcnt : alookup seen0 (buid ++ joiner ++ kv.1) = none :=
        hseen kv (List.mem_cons_self _ _)
      have hres2 : resolveTokens ch mts = .ok (.vstr (buid ++ joiner ++ kv.1)) := by
        rw [hcnt] at hres; exact hres
      have hout2 : acc1.1 = dset outputs0 (buid ++ joiner ++ kv.1) ch := by
        rw [hcnt] at hout1; exact hout1
      have hseen2 : acc1.2 = aset seen0 (buid ++ joiner ++ kv.1) 1 := by
        rw [hcnt] at hseen1; exact hseen1
      have hfresh : dmem outputs0 (buid ++ joiner ++ kv.1) = false :=
        houtk kv (List.mem_cons_self _ _)
      rw [dset_eq_append outputs0 _ ch hfresh] at hout2
      have hnotin : (buid ++ joiner ++ kv.1) ∉
          rest.map (fun kv => buid ++ joiner ++ kv.1) :=
        (List.nodup_cons.mp hnd).1
      have hnd' : (rest.map fun kv => buid ++ joiner ++ kv.1).Nodup :=
        (List.nodup_cons.mp hnd).2
      have hseen' : ∀ kv2 ∈ rest, alookup acc1.2 (buid ++ joiner ++ kv2.1) = none := by
        intro kv2 hm
        rw [hseen2]
        rw [alookup_aset_ne _ _ _ _ (by
          intro hc
          apply hnotin
          rw [← hc]
          exact List.mem_map.mpr ⟨kv2, hm, rfl⟩)]
        exact hseen kv2 (List.mem_cons_of_mem _ hm)
      have houtk' : ∀ kv2 ∈ rest, dmem acc1.1 (buid ++ joiner ++ kv2.1) = false := by
        intro kv2 hm
        rw [hout2, dmem_append_single]
        rw [houtk kv2 (List.mem_cons_of_mem _ hm)]
        rw [decide_eq_false (by
          intro hc
          apply hnotin
          rw [hc]
          exact List.mem_map.mpr ⟨kv2, hm, rfl⟩)]
        rfl
      have hfold : rest.foldlM (splitStep payload spec tt buid joiner)
          (acc1.1, acc1.2) = .ok res := h
      obtain ⟨hmap, hmem⟩ := ih acc1.1 acc1.2 res hseen' hnd' houtk' hfold
      constructor
      · rw [hmap, hout2]
        simp [List.map_append]
      · intro e he
        rcases hmem e he with hin | hres3
        · rw [hout2] at hin
          rcases List.mem_append.mp hin with hin0 | hin1
          · exact Or.inl hin0
          · rcases List.mem_singleton.mp hin1 with rfl
            exact Or.inr hres2
        · exact Or.inr hres3

/-- C10: whenever `split_payload` returns and the enumerated items of the
source container have pairwise-distinct keys (as Python dict keys and list
indices do), the returned mapping has exactly one child per item, the child
identifiers are pairwise distinct, each child stores its own output-map key
at `spec.attach_id_to_meta_path`, and a loop step that sees an already-used
base identifier (count `n+1` in `seen_ids`) produces the `_{n+1}`-suffixed
identifier instead of overwriting an earlier child. -/
theorem C10_split_children_distinct_ids :
    ∀ (payload : Val) (spec : SplitSpec) (outputs : List (String × Val))
      (source : Val) (items : List (String × Val)) (mts : List String),
    splitPayload payload spec = .ok outputs →
    resolvePath payload spec.source_path = .ok source →
    splitItems source spec = .ok items →
    (items.map Prod.fst).Nodup →
    parsePath spec.attach_id_to_meta_path = .ok mts →
    (outputs.length = items.length ∧
      (outputs.map Prod.fst).Nodup ∧
      ∀ e ∈ outputs, resolvePath e.2 spec.attach_id_to_meta_path =
        .ok (.vstr e.1)) ∧
    (∀ (tt2 : List String) (b2 j2 : String)
       (acc acc' : List (String × Val) × List (String × Nat))
       (kv : String × Val) (n : Nat),
       splitStep payload spec tt2 b2 j2 acc kv = .ok acc' →
       alookup acc.2 (b2 ++ j2 ++ kv.1) = some (n + 1) →
       ∃ ch, acc'.1 = dset acc.1
         ((b2 ++ j2 ++ kv.1) ++ "_" ++ toString (n + 1)) ch) := by
  intro payload spec outputs source items mts h hsrc hitems hnd hmt
  constructor
  · unfold splitPayload at h
    split at h
    · cases h
    · dsimp only at h
      rw [hsrc, bindE_ok] at h
      cases hpt : parsePath (match spec.child_payload_target_path with
          | some t => if t = "" then spec.source_path else t
          | none => spec.source_path) with
      | error e => rw [hpt, bindE_error] at h; cases h
      | ok tt =>
      rw [hpt, bindE_ok] at h
      rw [hitems, bindE_ok] at h
      cases hfold : items.foldlM
          (splitStep payload spec tt
            (computeIdentifier payload
              (spec.id_spec.getD { id_paths := defaultIdPaths }))
            (match spec.id_spec with | some i => i.joiner | none => "__"))
          ([], []) with
      | error e => rw [hfold, bindE_error] at h; cases h
      | ok fol =>
      rw [hfold, bindE_ok] at h
      cases h
      have hinj : Function.Injective (fun k : String =>
          computeIdentifier payload
            (spec.id_spec.getD { id_paths := defaultIdPaths }) ++
          (match spec.id_spec with | some i => i.joiner | none => "__") ++ k) := by
        intro a b hab
        have hab2 : (computeIdentifier payload
            (spec.id_spec.getD { id_paths := defaultIdPaths }) ++
            (match spec.id_spec with | some i => i.joiner | none => "__")) ++ a =
          (computeIdentifier payload
            (spec.id_spec.getD { id_paths := defaultIdPaths }) ++
            (match spec.id_spec with | some i => i.joiner | none => "__")) ++ b := hab
        exact str_append_left_cancel hab2
      have hndb : (items.map fun kv =>
          computeIdentifier payload
            (spec.id_spec.getD { id_paths := defaultIdPaths }) ++
          (match spec.id_spec with | some i => i.joiner | none => "__") ++
          kv.1).Nodup := by
        have : (items.map fun kv =>
            computeIdentifier payload
              (spec.id_spec.getD { id_paths := defaultIdPaths }) ++
            (match spec.id_spec with | some i => i.joiner | none => "__") ++
            kv.1) = (items.map Prod.fst).map (fun k =>
            computeIdentifier payload
              (spec.id_spec.getD { id_paths := defaultIdPaths }) ++
            (match spec.id_spec with | some i => i.joiner | none => "__") ++
            k) := by
          simp [List.map_map, Function.comp]
        rw [this]
        exact hnd.map hinj
      obtain ⟨hmap, hmem⟩ := splitFold_nodup payload spec tt _ _ mts hmt
        items [] [] fol (fun kv _ => rfl) hndb (fun kv _ => rfl) hfold
      refine ⟨?_, ?_, ?_⟩
      · have := congrArg List.length hmap
        simpa using this
      · rw [hmap]
        simpa using hndb
      · intro e he
        rcases hmem e he with hin | hres
        · cases hin
        · unfold resolvePath
          rw [hmt, bindE_ok]
          exact hres
  · intro tt2 b2 j2 acc acc' kv n hstep hcnt
    obtain ⟨ch, mts2, _, _, hout1, _⟩ :=
      splitStep_ok payload spec tt2 b2 j2 acc acc' kv hstep
    rw [hcnt] at hout1
    simp only [Option.getD_some, Nat.succ_ne_zero, if_false] at hout1
    exact ⟨ch, hout1⟩

/-- A two-channel payload with an explicit uid, to be split per channel. -/
def exP10 : Val := .vdict [("data", .vdict [("time", .varr [0, 1]),
  ("channels", .vdict [("A", .varr [1]), ("B", .varr [2])])]),
  ("meta", .vdict [("__uid__", .vstr "s1")])]

/-- A split specification over the channel mapping. -/
def sP10 : SplitSpec := { source_path := "data.channels", split_mode := "dict_keys" }

/-- The child produced for channel `A` of `exP10`. -/
def child10A : Val := .vdict [("data", .vdict [("time", .varr [0, 1]),
  ("channels", .vdict [("A", .varr [1])])]),
  ("meta", .vdict [("__uid__", .vstr "s1__A")])]

/-- The child produced for channel `B` of `exP10`. -/
def child10B : Val := .vdict [("data", .vdict [("time", .varr [0, 1]),
  ("channels", .vdict [("B", .varr [2])])]),
  ("meta", .vdict [("__uid__", .vstr "s1__B")])]

/-- Witness for C10: the concrete split of `exP10` yields one child per
channel with distinct ids, and child `A` stores its id at `meta.__uid__`. -/
theorem C10_witness :
    splitPayload exP10 sP10 =
      .ok [("s1__A", child10A), ("s1__B", child10B)] ∧
    ([("s1__A", child10A), ("s1__B", child10B)] :
      List (String × Val)).length = 2 ∧
    (([("s1__A", child10A), ("s1__B", child10B)] :
      List (String × Val)).map Prod.fst).Nodup ∧
    resolvePath child10A sP10.attach_id_to_meta_path = .ok (.vstr "s1__A") := by
  have hC := C10_split_children_distinct_ids exP10 sP10
    [("s1__A", child10A), ("s1__B", child10B)]
    (.vdict [("A", .varr [1]), ("B", .varr [2])])
    [("A", .varr [1]), ("B", .varr [2])] ["meta", "__uid__"]
    (by with_unfolding_all rfl) (by with_unfolding_all rfl)
    (by with_unfolding_all rfl) (by decide) (by with_unfolding_all rfl)
  refine ⟨by with_unfolding_all rfl, rfl, hC.1.2.1, ?_⟩
  exact hC.1.2.2 ("s1__A", child10A) (List.mem_cons_self _ _)

/-! ### C4: threshold monotonicity -/

theorem gtScal_threshold_antitone (p : DetectCandidatePeaksParams) (s' : ℚ)
    (noise : Scal) (v : ℚ) (h0 : 0 ≤ p.threshold_sigma)
    (h1 : p.threshold_sigma ≤ s')
    (h : gtScal v (thresholdOf { p with threshold_sigma := s' } noise) = true) :
    gtScal v (thresholdOf p noise) = true := by
  cases noise with
  | inf =>
      simp only [thresholdOf, Scal.nonpos, Bool.false_eq_true, if_false,
        Scal.mulQ, gtScal] at h
  | fin a b =>
      by_cases hab : a ≤ 0 ∨ b ≤ 0
      · have hnp : Scal.nonpos (.fin a b) = true := by
          rcases hab with h2 | h2 <;> simp [Scal.nonpos, h2]
        rw [thresholdOf, if_pos hnp] at h
        simp only [gtScal, Bool.false_eq_true] at h
      · push_neg at hab
        have ha : 0 < a := hab.1
        have hb : 0 < b := hab.2
        have hnp : Scal.nonpos (.fin a b) = false := by
          simp [Scal.nonpos, not_le.mpr ha, not_le.mpr hb]
        rw [thresholdOf, if_neg (by rw [hnp]; exact Bool.false_ne_true)] at h
        rw [thresholdOf, if_neg (by rw [hnp]; exact Bool.false_ne_true)]
        simp only [Scal.mulQ] at h ⊢
        rw [gtScal] at h
        rw [gtScal]
        rw [if_neg (not_le.mpr hb)] at h ⊢
        by_cases hs0 : p.threshold_sigma * a = 0
        · rw [if_pos hs0]
          by_cases hs'0 : s' * a = 0
          · rw [if_pos hs'0] at h
            exact h
          · have hs' : 0 < s' * a := lt_of_le_of_ne
              (mul_nonneg (le_trans h0 h1) (le_of_lt ha)) (Ne.symm hs'0)
            rw [if_neg hs'0, if_pos hs'] at h
            exact (Bool.and_eq_true_iff.mp h).1
        · have hs : 0 < p.threshold_sigma * a := lt_of_le_of_ne
            (mul_nonneg h0 (le_of_lt ha)) (Ne.symm hs0)
          rw [if_neg hs0, if_pos hs]
          have hs'0 : s' * a ≠ 0 := by
            intro hc
            exact hs0 (le_antisymm
              (by nlinarith) (mul_nonneg h0 (le_of_lt ha)))
          have hs' : 0 < s' * a := lt_of_le_of_ne
            (mul_nonneg (le_trans h0 h1) (le_of_lt ha)) (Ne.symm hs'0)
          rw [if_neg hs'0, if_pos hs'] at h
          obtain ⟨hv, hlt⟩ := Bool.and_eq_true_iff.mp h
          refine Bool.and_eq_true_iff.mpr ⟨hv, ?_⟩
          rw [decide_eq_true_iff] at hlt ⊢
          have hle : p.threshold_sigma * a ≤ s' * a :=
            mul_le_mul_of_nonneg_right h1 (le_of_lt ha)
          have hsq : (p.threshold_sigma * a) ^ 2 ≤ (s' * a) ^ 2 := by nlinarith
          linarith [mul_le_mul_of_nonneg_right hsq (le_of_lt hb)]

/-- C4 (amended): what is monotone under a rising `threshold_sigma` is the
set of above-threshold samples, not the reported peak count: for any
channel trace, any sample strictly above the higher threshold is also
strictly above the lower one, pointwise over the detection mask.  (The peak
count itself can increase when a region splits; see the counterexample.) -/
theorem C4_amended_mask_antitone :
    ∀ (p : DetectCandidatePeaksParams) (s' : ℚ) (noise : Scal) (v : ℚ)
      (y : List ℚ) (i : Nat),
    0 ≤ p.threshold_sigma → p.threshold_sigma ≤ s' →
    (gtScal v (thresholdOf { p with threshold_sigma := s' } noise) = true →
      gtScal v (thresholdOf p noise) = true) ∧
    ((maskOf y (thresholdOf { p with threshold_sigma := s' } noise)).getD i
        false = true →
      (maskOf y (thresholdOf p noise)).getD i false = true) := by
  intro p s' noise v y i h0 h1
  refine ⟨gtScal_threshold_antitone p s' noise v h0 h1, ?_⟩
  induction y generalizing i with
  | nil => intro h; cases h
  | cons hd tl ih =>
      cases i with
      | zero =>
          intro h
          exact gtScal_threshold_antitone p s' noise hd h0 h1 h
      | succ j =>
          intro h
          exact ih j h

/-- Low-threshold detection parameters for the C4 counterexample. -/
def pC4lo : DetectCandidatePeaksParams :=
  { threshold_sigma := 5, min_distance_samples := 1 }

/-- High-threshold detection parameters for the C4 counterexample. -/
def pC4hi : DetectCandidatePeaksParams :=
  { threshold_sigma := 20, min_distance_samples := 1 }

/-- Time axis of the C4 counterexample trace. -/
def tC4 : List ℚ := (List.range 23).map (fun n => (n : ℚ))

/-- The C4 counterexample trace: a weak-pulse baseline followed by two
strong samples separated by a medium one. -/
def yC4 : List ℚ :=
  List.replicate 10 1 ++ List.replicate 10 (-1) ++ [100, 20, 100]

/-- Counterexample to C4 as stated: on `yC4`, raising `threshold_sigma`
from 5 to 20 (all other parameters fixed) increases the reported
per-channel peak count from 1 to 2, because the single above-threshold
region `[20,23)` splits into `[20,21)` and `[22,23)` once the middle
sample falls below the higher threshold. -/
theorem C4_counterexample :
    (detectChannel pC4lo tC4 "w" (.varr yC4)).map (fun r => r.1.length) =
      .ok 1 ∧
    (detectChannel pC4hi tC4 "w" (.varr yC4)).map (fun r => r.1.length) =
      .ok 2 := by
  constructor
  · with_unfolding_all rfl
  · with_unfolding_all rfl

/-- Witness for the amended C4 on a concrete sample and mask entry. -/
theorem C4_witness :
    (gtScal 50 (thresholdOf { pC4lo with threshold_sigma := 20 }
        (.fin 2 1)) = true →
      gtScal 50 (thresholdOf pC4lo (.fin 2 1)) = true) ∧
    ((maskOf [50] (thresholdOf { pC4lo with threshold_sigma := 20 }
        (.fin 2 1))).getD 0 false = true →
      (maskOf [50] (thresholdOf pC4lo (.fin 2 1))).getD 0 false = true) ∧
    gtScal 50 (thresholdOf { pC4lo with threshold_sigma := 20 }
        (.fin 2 1)) = true := by
  have hC := C4_amended_mask_antitone pC4lo 20 (.fin 2 1) 50 [50] 0
    (by norm_num [pC4lo]) (by norm_num [pC4lo])
  exact ⟨hC.1, hC.2, by with_unfolding_all rfl⟩

/-! ### C5: dead-time deduplication -/

theorem insertByI_mem (p x : Peak) :
    ∀ l : List Peak, x ∈ insertByI p l → x = p ∨ x ∈ l := by
  intro l
  induction l with
  | nil => intro h; exact Or.inl (List.mem_singleton.mp h)
  | cons q rest ih =>
      intro h
      unfold insertByI at h
      by_cases hc : p.i ≤ q.i
      · rw [if_pos hc] at h
        rcases List.mem_cons.mp h with h1 | h1
        · exact Or.inl h1
        · exact Or.inr h1
      · rw [if_neg hc] at h
        rcases List.mem_cons.mp h with h1 | h1
        · exact Or.inr (h1 ▸ List.mem_cons_self _ _)
        · rcases ih h1 with h2 | h2
          · exact Or.inl h2
          · exact Or.inr (List.mem_cons_of_mem _ h2)

theorem insertByI_sorted (p : Peak) :
    ∀ l : List Peak, l.Pairwise (fun x y => x.i ≤ y.i) →
    (insertByI p l).Pairwise (fun x y => x.i ≤ y.i) := by
  intro l
  induction l with
  | nil => intro _; exact List.pairwise_singleton _ _
  | cons q rest ih =>
      intro h
      rcases List.pairwise_cons.mp h with ⟨hq, hrest⟩
      unfold insertByI
      by_cases hc : p.i ≤ q.i
      · rw [if_pos hc]
        refine List.pairwise_cons.mpr ⟨?_, h⟩
        intro x hx
        rcases List.mem_cons.mp hx with h1 | h1
        · exact h1 ▸ hc
        · exact le_trans hc (hq x h1)
      · rw [if_neg hc]
        refine List.pairwise_cons.mpr ⟨?_, ih hrest⟩
        intro x hx
        rcases insertByI_mem p x rest hx with h1 | h1
        · exact h1 ▸ le_of_lt (lt_of_not_le hc)
        · exact hq x h1

theorem sortByI_sorted (l : List Peak) :
    (sortByI l).Pairwise (fun x y => x.i ≤ y.i) := by
  induction l with
  | nil => exact List.Pairwise.nil
  | cons p rest ih => exact insertByI_sorted p (sortByI rest) ih

theorem dtConsume_cur_mem (d : Int) :
    ∀ (cur : Peak) (l : List Peak),
    (dtConsume d cur l).1 = cur ∨ (dtConsume d cur l).1 ∈ l := by
  intro cur l
  induction l generalizing cur with
  | nil => exact Or.inl rfl
  | cons q rest ih =>
      rw [dtConsume]
      by_cases hc : (q.i : Int) - (cur.i : Int) < d
      · rw [if_pos hc]
        rcases ih (if cur.amp < q.amp then q else cur) with h1 | h1
        · rw [h1]
          by_cases ha : cur.amp < q.amp
          · rw [if_pos ha]; exact Or.inr (List.mem_cons_self _ _)
          · rw [if_neg ha]; exact Or.inl rfl
        · exact Or.inr (List.mem_cons_of_mem _ h1)
      · rw [if_neg hc]
        exact Or.inl rfl

theorem dtConsume_rest_suffix (d : Int) :
    ∀ (cur : Peak) (l : List Peak), (dtConsume d cur l).2 <:+ l := by
  intro cur l
  induction l generalizing cur with
  | nil => exact List.suffix_refl _
  | cons q rest ih =>
      rw [dtConsume]
      by_cases hc : (q.i : Int) - (cur.i : Int) < d
      · rw [if_pos hc]
        exact (ih _).trans (List.suffix_cons q rest)
      · rw [if_neg hc]

theorem dtConsume_sep (d : Int) :
    ∀ (l : List Peak) (cur : Peak),
    l.Pairwise (fun x y => x.i ≤ y.i) →
    (∀ q ∈ l, cur.i ≤ q.i) →
    ∀ q ∈ (dtConsume d cur l).2,
      ((dtConsume d cur l).1.i : Int) + d ≤ (q.i : Int) := by
  intro l
  induction l with
  | nil => intro cur _ _ q hq; cases hq
  | cons q rest ih =>
      intro cur hs hcur r hr
      rcases List.pairwise_cons.mp hs with ⟨hq, hrest⟩
      rw [dtConsume] at hr ⊢
      by_cases hc : (q.i : Int) - (cur.i : Int) < d
      · rw [if_pos hc] at hr ⊢
        refine ih (if cur.amp < q.amp then q else cur) hrest ?_ r hr
        intro x hx
        by_cases ha : cur.amp < q.amp
        · rw [if_pos ha]; exact hq x hx
        · rw [if_neg ha]; exact hcur x (List.mem_cons_of_mem _ hx)
      · rw [if_neg hc] at hr ⊢
        dsimp only at hr ⊢
        rcases List.mem_cons.mp hr with h1 | h1
        · subst h1; omega
        · have h2 : q.i ≤ r.i := hq r h1
          omega

theorem dtGo_mem (d : Int) :
    ∀ (fuel : Nat) (l : List Peak) (x : Peak), x ∈ dtGo d fuel l → x ∈ l := by
  intro fuel
  induction fuel with
  | zero => intro l x h; cases h
  | succ fuel ih =>
      intro l x h
      cases l with
      | nil => cases h
      | cons p rest =>
          rw [dtGo] at h
          rcases List.mem_cons.mp h with h1 | h1
          · rcases dtConsume_cur_mem d p rest with h2 | h2
            · rw [h1, h2]
              exact List.mem_cons_self _ _
            · rw [h1]
              exact List.mem_cons_of_mem _ h2
          · exact List.mem_cons_of_mem _
              ((dtConsume_rest_suffix d p rest).subset (ih _ x h1))

theorem dtGo_pairwise (d : Int) :
    ∀ (fuel : Nat) (l : List Peak),
    l.Pairwise (fun x y => x.i ≤ y.i) →
    (dtGo d fuel l).Pairwise (fun x y => (x.i : Int) + d ≤ (y.i : Int)) := by
  intro fuel
  induction fuel with
  | zero => intro l _; exact List.Pairwise.nil
  | succ fuel ih =>
      intro l hs
      cases l with
      | nil => exact List.Pairwise.nil
      | cons p rest =>
          rw [dtGo]
          rcases List.pairwise_cons.mp hs with ⟨hp, hrest⟩
          refine List.pairwise_cons.mpr ⟨?_, ?_⟩
          · intro x hx
            exact dtConsume_sep d rest p hrest hp x (dtGo_mem d fuel _ x hx)
          · exact ih _ (hrest.sublist (dtConsume_rest_suffix d p rest).sublist)

/-- C5: the dead-time pass is the greedy sweep of `_apply_deadtime`: on any
candidate list, any two reported peaks (in particular consecutive ones) are
at least `min_distance` samples apart; and two index-ordered candidates
within `min_distance` of each other collapse to the single
higher-amplitude one. -/
theorem C5_deadtime_greedy_separation :
    ∀ (peaks : List Peak) (d : Int) (a b : Peak),
    ((applyDeadtime peaks d).Pairwise
      (fun x y => (x.i : Int) + d ≤ (y.i : Int))) ∧
    (a.i ≤ b.i → (b.i : Int) - (a.i : Int) < d →
      applyDeadtime [a, b] d = [if a.amp < b.amp then b else a]) := by
  intro peaks d a b
  constructor
  · unfold applyDeadtime
    by_cases hp : peaks = []
    · rw [if_pos hp]; exact List.Pairwise.nil
    · rw [if_neg hp]
      exact dtGo_pairwise d (peaks.length + 1) (sortByI peaks)
        (sortByI_sorted peaks)
  · intro hab hlt
    unfold applyDeadtime
    rw [if_neg (by simp)]
    have hsort : sortByI [a, b] = [a, b] := by
      show (if a.i ≤ b.i then a :: b :: [] else b :: insertByI a []) = [a, b]
      rw [if_pos hab]
    rw [hsort]
    show dtGo d 3 [a, b] = _
    rw [dtGo]
    rw [show dtConsume d a [b] =
        (if a.amp < b.amp then b else a, []) from by
      rw [dtConsume, if_pos hlt, dtConsume]]
    rfl

/-- Detection parameters for the C5 witness trace. -/
def pC5 : DetectCandidatePeaksParams := { min_distance_samples := 20 }

/-- Time axis of the C5 witness trace. -/
def tC5 : List ℚ := (List.range 38).map (fun n => (n : ℚ))

/-- The C5 witness trace: alternating weak baseline with pulses of
amplitude 50 at sample 20 and 80 at sample 28, eight samples apart. -/
def yC5 : List ℚ :=
  List.replicate 10 1 ++ List.replicate 10 (-1) ++ [50] ++
  List.replicate 7 (-1) ++ [80] ++ List.replicate 7 1 ++
  List.replicate 2 (-1)

/-- The candidate peak at sample 20 of `yC5`. -/
def pkA5 : Peak :=
  { i := 20, t := 20, amp := 50, region_start := 20, region_end := 21,
    snr := .fin 1 1 }

/-- The candidate peak at sample 28 of `yC5`. -/
def pkB5 : Peak :=
  { i := 28, t := 28, amp := 80, region_start := 28, region_end := 29,
    snr := .fin 1 1 }

set_option maxRecDepth 8000 in
/-- Witness for C5: the two concrete candidates 8 samples apart collapse
under `min_distance_samples = 20` to the higher-amplitude one, the
separation conclusion holds on them, and the full per-channel pipeline on
`yC5` reports exactly the single larger peak. -/
theorem C5_witness :
    ((applyDeadtime [pkA5, pkB5] 20).Pairwise
      (fun x y => (x.i : Int) + 20 ≤ (y.i : Int))) ∧
    applyDeadtime [pkA5, pkB5] 20 = [pkB5] ∧
    (detectChannel pC5 tC5 "w" (.varr yC5)).map
      (fun r => r.1.map (fun pk => (pk.i, pk.amp))) = .ok [(28, 80)] := by
  have hC := C5_deadtime_greedy_separation [pkA5, pkB5] 20 pkA5 pkB5
  have h2 := hC.2 (by decide) (by decide)
  rw [if_pos (by norm_num [pkA5, pkB5])] at h2
  exact ⟨hC.1, h2, by with_unfolding_all rfl⟩

/-! ### C8: path parsing error taxonomy -/

theorem exceptMap_error {α β : Type} (f : α → β) (r : Except PyErr α)
    (e : PyErr) (h : r.map f = .error e) : r = .error e := by
  cases r with
  | ok a => cases h
  | error e2 => cases h; rfl

theorem dropWhile_head_false (p : Char → Bool) :
    ∀ (l : List Char) (x : Char) (xs : List Char),
    l.dropWhile p = x :: xs → p x = false := by
  intro l
  induction l with
  | nil => intro x xs h; cases h
  | cons a t ih =>
      intro x xs h
      rw [List.dropWhile_cons] at h
      by_cases hp : p a = true
      · rw [if_pos hp] at h
        exact ih x xs h
      · rw [if_neg hp] at h
        cases h
        exact Bool.not_eq_true _ ▸ (Bool.eq_false_iff.mpr hp)

theorem takeWhile_all_append (p : Char → Bool) :
    ∀ (l1 : List Char) (x : Char) (l2 : List Char),
    (∀ c ∈ l1, p c = true) → p x = false →
    (l1 ++ x :: l2).takeWhile p = l1 ∧ (l1 ++ x :: l2).dropWhile p = x :: l2 := by
  intro l1
  induction l1 with
  | nil =>
      intro x l2 _ hx
      constructor
      · rw [List.nil_append, List.takeWhile_cons, if_neg (by rw [hx]; exact Bool.false_ne_true)]
      · rw [List.nil_append, List.dropWhile_cons, if_neg (by rw [hx]; exact Bool.false_ne_true)]
  | cons a t ih =>
      intro x l2 hall hx
      have ha : p a = true := hall a (List.mem_cons_self _ _)
      have ht := ih x l2 (fun c hc => hall c (List.mem_cons_of_mem _ hc)) hx
      constructor
      · rw [List.cons_append, List.takeWhile_cons, if_pos ha, ht.1]
      · rw [List.cons_append, List.dropWhile_cons, if_pos ha]
        exact ht.2

theorem mem_dropWhile_not (p : Char → Bool) :
    ∀ (l : List Char) (c : Char), c ∈ l → p c = false → c ∈ l.dropWhile p := by
  intro l
  induction l with
  | nil => intro c hc _; cases hc
  | cons a t ih =>
      intro c hc hp
      rw [List.dropWhile_cons]
      by_cases ha : p a = true
      · rw [if_pos ha]
        rcases List.mem_cons.mp hc with h1 | h1
        · exfalso; rw [h1, ha] at hp; cases hp
        · exact ih c h1 hp
      · rw [if_neg ha]
        exact hc

theorem pyStrip_ne_nil (cs : List Char) (c : Char) (hc : c ∈ cs)
    (hsp : isPySpace c = false) : pyStrip cs ≠ [] := by
  intro h
  unfold pyStrip at h
  rw [List.reverse_eq_nil_iff, List.dropWhile_eq_nil_iff] at h
  have h1 : c ∈ (cs.dropWhile isPySpace).reverse :=
    List.mem_reverse.mpr (mem_dropWhile_not isPySpace cs c hc hsp)
  rw [h c h1] at hsp
  cases hsp

theorem getLast?_append_cons (l1 : List Char) (x : Char) (l2 : List Char) :
    (l1 ++ x :: l2).getLast? = (x :: l2).getLast? := by
  rw [List.getLast?_eq_head?_reverse, List.getLast?_eq_head?_reverse,
    List.reverse_append, List.head?_append]
  cases hh : (x :: l2).reverse.head? with
  | none =>
      exfalso
      cases hr : (x :: l2).reverse with
      | nil => exact absurd (List.reverse_eq_nil_iff.mp hr) (by simp)
      | cons a t => rw [hr] at hh; cases hh
  | some a => rfl

theorem getLast?_mem' (l : List Char) (a : Char) (h : l.getLast? = some a) :
    a ∈ l := by
  rw [List.getLast?_eq_head?_reverse] at h
  cases hr : l.reverse with
  | nil => rw [hr] at h; cases h
  | cons b t =>
      rw [hr] at h
      cases h
      exact List.mem_reverse.mp (hr ▸ List.mem_cons_self _ _)

theorem parseGo_error_inv :
    ∀ (fuel : Nat) (cs : List Char) (e : PyErr),
    parseGo fuel cs = .error e →
    e.cls = "PathResolutionError" ∧ e.msg ≠ "Empty path segment" := by
  intro fuel
  induction fuel with
  | zero =>
      intro cs e h
      rw [parseGo] at h
      cases h
      exact ⟨rfl, by decide⟩
  | succ n ih =>
      intro cs e h
      cases cs with
      | nil => rw [parseGo] at h; cases h
      | cons c rest =>
          by_cases hdot : c = '.'
          · subst hdot
            rw [parseGo] at h
            by_cases hre : rest.isEmpty
            · rw [if_pos hre] at h; cases h; exact ⟨rfl, by decide⟩
            · rw [if_neg hre] at h; exact ih rest e h
          · by_cases hbr : c = '['
            · subst hbr
              rw [parseGo] at h
              cases hdw : rest.dropWhile notRB with
              | nil =>
                  rw [hdw] at h
                  cases h
                  exact ⟨rfl, by decide⟩
              | cons rb rest2 =>
                  rw [hdw] at h
                  split at h
                  · cases h; exact ⟨rfl, by decide⟩
                  · rename_i rest2x cx tailx heq
                    injection heq with h1 h2
                    subst h1
                    subst h2
                    split at h
                    · dsimp only at h
                      split at h
                      · cases h; exact ⟨rfl, by decide⟩
                      · cases h
                    · dsimp only at h
                      split at h
                      · cases h; exact ⟨rfl, by decide⟩
                      · split at h
                        · exact ih _ e (exceptMap_error _ _ e h)
                        · cases h; exact ⟨rfl, by decide⟩
            · rw [parseGo] at h
              · rw [if_neg (by rw [List.isEmpty_cons]; exact Bool.false_ne_true)] at h
                exact ih _ e (exceptMap_error _ _ e h)
              · exact fun hc => hdot hc
              · exact fun hc => hbr hc

theorem parseGo_trailing_dot :
    ∀ (fuel : Nat) (cs : List Char), cs.getLast? = some '.' →
    cs.length < fuel → ∃ e, parseGo fuel cs = .error e := by
  intro fuel
  induction fuel with
  | zero => intro cs _ hl; omega
  | succ n ih =>
      intro cs hlast hlen
      cases cs with
      | nil => cases hlast
      | cons c rest =>
          by_cases hdot : c = '.'
          · subst hdot
            rw [parseGo]
            cases hre : rest with
            | nil =>
                rw [if_pos (by rw [List.isEmpty_nil])]
                exact ⟨_, rfl⟩
            | cons r rt =>
                rw [if_neg (by rw [List.isEmpty_cons]; exact Bool.false_ne_true)]
                refine ih (r :: rt) ?_ ?_
                · have : ('.' :: r :: rt).getLast? = (r :: rt).getLast? :=
                    getLast?_append_cons ['.'] r rt
                  rw [← this, ← hre]
                  exact hlast
                · rw [hre] at hlen
                  simp only [List.length_cons] at hlen ⊢
                  omega
          · by_cases hbr : c = '['
            · subst hbr
              rw [parseGo]
              cases hdw : rest.dropWhile notRB with
              | nil => exact ⟨_, rfl⟩
              | cons rb rest2 =>
                  dsimp only
                  have hrb : rb = ']' := by
                    have := dropWhile_head_false notRB rest rb rest2 hdw
                    unfold notRB at this
                    simpa using this
                  have hrest : rest = rest.takeWhile notRB ++ rb :: rest2 := by
                    rw [← hdw, List.takeWhile_append_dropWhile]
                  split
                  · exact ⟨_, rfl⟩
                  · cases hr2 : rest2 with
                    | nil =>
                        exfalso
                        have hgl : ('[' :: rest).getLast? = some ']' := by
                          rw [hrest, hr2, hrb]
                          rw [show ('[' :: (rest.takeWhile notRB ++ [']'] : List Char)) =
                            ('[' :: rest.takeWhile notRB) ++ [']'] from by
                              rw [List.cons_append]]
                          exact List.getLast?_concat _
                        rw [hlast] at hgl
                        cases hgl
                    | cons c2 rest3 =>
                        dsimp only
                        by_cases hdel :
                            (decide (c2 = '.') || decide (c2 = '[')) = true
                        · rw [if_pos hdel]
                          have hgl : (c2 :: rest3).getLast? = some '.' := by
                            have h1 : ('[' :: rest).getLast? =
                                (rb :: rest2).getLast? := by
                              rw [hrest, ← List.cons_append]
                              exact getLast?_append_cons _ rb rest2
                            have h2 : (rb :: rest2).getLast? =
                                (c2 :: rest3).getLast? := by
                              rw [hr2]
                              exact getLast?_append_cons [rb] c2 rest3
                            rw [← h2, ← h1]
                            exact hlast
                          have hln : (c2 :: rest3).length < n := by
                            have := congrArg List.length hrest
                            rw [hr2] at this
                            simp only [List.length_cons, List.length_append] at this hlen ⊢
                            omega
                          obtain ⟨e, he⟩ := ih (c2 :: rest3) hgl hln
                          rw [he]
                          exact ⟨e, rfl⟩
                        · rw [if_neg hdel]
                          exact ⟨_, rfl⟩
            · rw [parseGo]
              · rw [if_neg (by rw [List.isEmpty_cons]; exact Bool.false_ne_true)]
                cases hdw : rest.dropWhile notDelim with
                | nil =>
                    exfalso
                    rw [List.dropWhile_eq_nil_iff] at hdw
                    cases hre : rest with
                    | nil =>
                        rw [hre] at hlast
                        cases hlast
                        exact hdot rfl
                    | cons r rt =>
                        have hgl : (r :: rt).getLast? = some '.' := by
                          have : (c :: rest).getLast? = (r :: rt).getLast? := by
                            rw [hre]
                            exact getLast?_append_cons [c] r rt
                          rw [← this]; exact hlast
                        have hmem : ('.' : Char) ∈ rest := by
                          rw [hre]
                          exact getLast?_mem' _ _ hgl
                        have := hdw '.' hmem
                        unfold notDelim at this
                        simp at this
                | cons d0 drest =>
                    have hgl : (d0 :: drest).getLast? = some '.' := by
                      have hrest : rest = rest.takeWhile notDelim ++ d0 :: drest := by
                        rw [← hdw, List.takeWhile_append_dropWhile]
                      have h1 : (c :: rest).getLast? = (d0 :: drest).getLast? := by
                        conv_lhs => rw [hrest, ← List.cons_append]
                        exact getLast?_append_cons _ d0 drest
                      rw [← h1]; exact hlast
                    have hln : (d0 :: drest).length < n := by
                      have h2 := lenDropWhileLe notDelim rest
                      rw [hdw] at h2
                      simp only [List.length_cons] at h2 hlen ⊢
                      omega
                    obtain ⟨e, he⟩ := ih (d0 :: drest) hgl hln
                    rw [he]
                    exact ⟨e, rfl⟩
              · exact fun hc => hdot hc
              · exact fun hc => hbr hc

/-- C8 (amended): path-parsing failures carry the class
`PathResolutionError` — the same exception class as resolution failures,
there is no distinct `PathSyntaxError` — and never the dead
"Empty path segment" message; parsing fails for empty or whitespace-only
paths, paths ending in `'.'`, an unterminated bracket, bracket contents
that are not a matching-quoted string, and a closing bracket followed by a
character other than `'.'` or `'['`; an empty bare segment between
consecutive dots is skipped, not rejected. -/
theorem C8_amended_parse_failures :
    ∀ (s : String) (e : PyErr) (rest content rest3 : List Char) (c : Char),
    (parsePath s = .error e →
      e.cls = "PathResolutionError" ∧ e.msg ≠ "Empty path segment") ∧
    (s.data = [] ∨ pyStrip s.data = [] →
      parsePath s = .error (pathErr "Path is empty")) ∧
    (s.data.getLast? = some '.' →
      ∃ e2, parsePath s = .error e2 ∧ e2.cls = "PathResolutionError") ∧
    (']' ∉ rest →
      parsePath (String.mk ('[' :: rest)) =
        .error (pathErr "Missing closing bracket in path")) ∧
    ((∀ c2 ∈ content, notRB c2 = true) →
      ((pyStrip content).length < 2 ∨
        (pyStrip content).headD ' ' ∉ [dquote, squote] ∨
        (pyStrip content).getLastD ' ' ≠ (pyStrip content).headD ' ') →
      parsePath (String.mk ('[' :: (content ++ ']' :: rest3))) =
        .error (pathErr "Bracket path must be a quoted string")) ∧
    ((∀ c2 ∈ content, notRB c2 = true) →
      2 ≤ (pyStrip content).length →
      (pyStrip content).headD ' ' ∈ [dquote, squote] →
      (pyStrip content).getLastD ' ' = (pyStrip content).headD ' ' →
      c ≠ '.' → c ≠ '[' →
      parsePath (String.mk ('[' :: (content ++ ']' :: c :: rest3))) =
        .error (pathErr "Unexpected characters after bracket expression")) := by
  intro s e rest content rest3 c
  refine ⟨?_, ?_, ?_, ?_, ?_, ?_⟩
  · intro h
    unfold parsePath at h
    split at h
    · cases h; exact ⟨rfl, by decide⟩
    · exact parseGo_error_inv _ _ e h
  · intro hemp
    unfold parsePath
    split
    · rfl
    · rename_i hcond
      exfalso
      apply hcond
      rcases hemp with h | h <;> simp [h]
  · intro hlast
    unfold parsePath
    split
    · exact ⟨_, rfl, rfl⟩
    · obtain ⟨e2, he2⟩ :=
        parseGo_trailing_dot (s.data.length + 1) s.data hlast (by omega)
      exact ⟨e2, he2, (parseGo_error_inv _ _ _ he2).1⟩
  · intro hnr
    unfold parsePath
    split
    · rename_i hcond
      exfalso
      rcases (by simpa using hcond : '[' :: rest = [] ∨ pyStrip ('[' :: rest) = []) with h | h
      · cases h
      · exact pyStrip_ne_nil _ '[' (List.mem_cons_self _ _) rfl h
    · have hdw : List.dropWhile notRB rest = [] :=
        List.dropWhile_eq_nil_iff.mpr (fun x hx =>
          decide_eq_true (fun heq => hnr (heq ▸ hx)))
      rw [parseGo, hdw]
  · intro hcontent hbad
    unfold parsePath
    split
    · rename_i hcond
      exfalso
      rcases (by simpa using hcond :
        ('[' :: (content ++ ']' :: rest3)) = [] ∨
          pyStrip ('[' :: (content ++ ']' :: rest3)) = []) with h | h
      · cases h
      · exact pyStrip_ne_nil _ '[' (List.mem_cons_self _ _) rfl h
    · have htw := takeWhile_all_append notRB content ']' rest3 hcontent (by decide)
      rw [show (String.mk ('[' :: (content ++ ']' :: rest3))).data =
        '[' :: (content ++ ']' :: rest3) from rfl]
      generalize ('[' :: (content ++ ']' :: rest3)).length = m
      rw [parseGo, htw.2]
      cases rest3 with
      | nil =>
          dsimp only
          rw [htw.1]
          rw [if_pos (by
            simp only [Bool.or_eq_true, decide_eq_true_eq]
            rcases hbad with h | h | h
            · exact Or.inl (Or.inl h)
            · exact Or.inl (Or.inr (by simpa using h))
            · exact Or.inr (by simpa using h))]
      | cons c3 t3 =>
          dsimp only
          rw [htw.1]
          rw [if_pos (by
            simp only [Bool.or_eq_true, decide_eq_true_eq]
            rcases hbad with h | h | h
            · exact Or.inl (Or.inl h)
            · exact Or.inl (Or.inr (by simpa using h))
            · exact Or.inr (by simpa using h))]
  · intro hcontent hlen hhead hlast2 hcd hcb
    unfold parsePath
    split
    · rename_i hcond
      exfalso
      rcases (by simpa using hcond :
        ('[' :: (content ++ ']' :: c :: rest3)) = [] ∨
          pyStrip ('[' :: (content ++ ']' :: c :: rest3)) = []) with h | h
      · cases h
      · exact pyStrip_ne_nil _ '[' (List.mem_cons_self _ _) rfl h
    · have htw := takeWhile_all_append notRB content ']' (c :: rest3) hcontent (by decide)
      rw [show (String.mk ('[' :: (content ++ ']' :: c :: rest3))).data =
        '[' :: (content ++ ']' :: c :: rest3) from rfl]
      generalize ('[' :: (content ++ ']' :: c :: rest3)).length = m
      rw [parseGo, htw.2]
      dsimp only
      rw [htw.1]
      rw [if_neg (by
        simp only [Bool.or_eq_true, decide_eq_true_eq]
        push_neg
        exact ⟨⟨hlen, by simpa using hhead⟩, by simpa using hlast2⟩)]
      rw [if_neg (by simp [hcd, hcb])]

/-- Counterexample to C8 as stated: `"a..b"` contains an empty bare
segment yet parses successfully, and the class raised for malformed paths
is `PathResolutionError`, identical to the class raised for resolution
failures — there is no distinct `PathSyntaxError`. -/
theorem C8_counterexample :
    parsePath "a..b" = .ok ["a", "b"] ∧
    parsePath "a." = .error (pathErr "Path cannot end with dot") ∧
    resolvePath (.vdict []) "a" = .error (pathErr "Missing key a") ∧
    (pathErr "Path cannot end with dot").cls = (pathErr "Missing key a").cls := by
  exact ⟨by with_unfolding_all rfl, by with_unfolding_all rfl,
    by with_unfolding_all rfl, rfl⟩

/-- Witness for the amended C8 on concrete malformed paths of each kind. -/
theorem C8_witness :
    (pathErr "Path cannot end with dot").cls = "PathResolutionError" ∧
    parsePath (String.mk [' ']) = .error (pathErr "Path is empty") ∧
    (∃ e2, parsePath "a." = .error e2 ∧ e2.cls = "PathResolutionError") ∧
    parsePath (String.mk ['[', 'a']) =
      .error (pathErr "Missing closing bracket in path") ∧
    parsePath (String.mk ('[' :: (['a'] ++ ']' :: []))) =
      .error (pathErr "Bracket path must be a quoted string") ∧
    parsePath (String.mk ('[' :: ([squote, 'a', squote] ++ ']' :: 'x' :: []))) =
      .error (pathErr "Unexpected characters after bracket expression") := by
  have hA := C8_amended_parse_failures "a."
    (pathErr "Path cannot end with dot") ['a'] ['a'] [] 'x'
  have hB := C8_amended_parse_failures (String.mk [' '])
    (pathErr "Path is empty") ['a'] [squote, 'a', squote] [] 'x'
  refine ⟨(hA.1 (by with_unfolding_all rfl)).1,
    hB.2.1 (Or.inr (by decide)),
    hA.2.2.1 (by decide),
    hA.2.2.2.1 (by decide),
    hA.2.2.2.2.1 (by decide) (Or.inl (by decide)),
    hB.2.2.2.2.2 (by decide) (by decide) (by decide) (by decide)
      (by decide) (by decide)⟩

end Hxr
